import Mathlib

/-!
Verification of the monkey-ts tree-walking interpreter (a TypeScript
implementation of the Monkey language: lexer, Pratt parser, recursive
evaluator over a chained environment, and a tagged runtime object system).

This file shallowly embeds the data model and the operations of the
interpreter in Lean and proves properties about them:

* AST nodes (`src/monkey/ast/ast.ts`) become the inductive type `Node`.
* Runtime objects (`src/monkey/object/object.ts`) become `MObj`.  JavaScript
  object *identity* (the `===` operator, used by the evaluator for `==`/`!=`
  and for the singleton checks) is modelled by giving every heap-allocated
  object a unique allocation id drawn from a counter that is threaded
  through evaluation; `refEq` compares those ids (plus the immediate
  non-recursive payload, which is harmless because ids are unique).
* Environments (`src/monkey/object/environment.ts`) are mutable and shared
  by reference (closures capture them), so they live in an explicit heap:
  a list of frames, a frame index playing the role of a reference.
* JavaScript `null` results of `evalNode` are modelled by `Option MObj`
  (`none` = `null`); a value stored in an environment can additionally be
  the JavaScript `undefined` (from binding a missing argument), hence
  stores map names to `Option (Option MObj)` (`none` = `undefined`).
* Machine numbers are modelled as unbounded `Int`.  The TypeScript code
  computes on IEEE doubles, which agree with exact integer arithmetic for
  all values below 2^53; the 32-bit wrap-around of the string hash is
  modelled explicitly by `jsToInt32`.
* The evaluator is presented as fuel-indexed mutual recursion.  The outer
  `Option` of a result is `none` when the fuel runs out or when the
  original program would crash the JavaScript host (a member access on
  `null`, which the source reaches only in corners never exercised here).
-/

set_option maxHeartbeats 1000000

namespace Monkey

/-! ## AST (`src/monkey/ast/ast.ts`)

One inductive covers both statement and expression nodes, mirroring the
single `Node` hierarchy of the source (the evaluator dispatches on the
concrete class with `instanceof`).  Token fields, which only feed
`tokenLiteral`/`toString`, are dropped except where they carry the payload.
-/

inductive Node where
  | program (statements : List Node)
  | letS (name : String) (value : Node)
  | returnS (returnValue : Node)
  | exprStmt (expression : Node)
  | blockS (statements : List Node)
  | ident (value : String)
  | intLit (value : Int)
  | strLit (value : String)
  | boolLit (value : Bool)
  | arrayLit (elements : List Node)
  | hashLit (pairs : List (Node × Node))
  | prefixE (operator : String) (right : Node)
  | infixE (left : Node) (operator : String) (right : Node)
  | ifE (condition : Node) (consequence : Node) (alternative : Option Node)
  | funcLit (parameters : List String) (body : Node)
  | callE (func : Node) (args : List Node)
  | indexE (left : Node) (index : Node)
deriving Repr

/-! ## Runtime objects (`src/monkey/object/object.ts`, `types.ts`) -/

/-- Object type constants of `src/monkey/object/types.ts`. -/
def NULL_OBJ : String := "NULL"

def ERROR_OBJ : String := "ERROR"

def INTEGER_OBJ : String := "INTEGER"

def BOOLEAN_OBJ : String := "BOOLEAN"

def STRING_OBJ : String := "STRING"

def RETURN_VALUE_OBJ : String := "RETURN_VALUE"

def FUNCTION_OBJ : String := "FUNCTION"

def BUILTIN_OBJ : String := "BUILTIN"

def ARRAY_OBJ : String := "ARRAY"

def HASH_OBJ : String := "HASH"

/-- Runtime objects.  The first `Nat` field of each constructor is the
allocation id: every `new` in the source draws a fresh id, so id equality
models JavaScript reference identity (`===`).  `ReturnValue.value`,
array elements and hash values may be the JavaScript `null` (the evaluator
constructs them from possibly-`null` results with `!` assertions), hence
`Option MObj` there.  A hash stores, under the string rendering of a
`HashKey`, the pair of the original key object and the value object. -/
inductive MObj where
  | intO (id : Nat) (value : Int)
  | boolO (id : Nat) (value : Bool)
  | nullO (id : Nat)
  | strO (id : Nat) (value : String)
  | retO (id : Nat) (value : Option MObj)
  | errO (id : Nat) (message : String)
  | funO (id : Nat) (parameters : List String) (body : Node) (env : Nat)
  | builtinO (id : Nat) (name : String)
  | arrO (id : Nat) (elements : List (Option MObj))
  | hashO (id : Nat) (pairs : List (String × MObj × Option MObj))
deriving Repr

/-- The three module-level singletons of `evaluator.ts` (`NULL`, `TRUE`,
`FALSE`); they are allocated before anything else, so they get ids 0-2. -/
def NULLobj : MObj := .nullO 0

def TRUEobj : MObj := .boolO 1 true

def FALSEobj : MObj := .boolO 2 false

/-- `MonkeyObject.type()`. -/
def typeOf : MObj → String
  | .intO _ _ => INTEGER_OBJ
  | .boolO _ _ => BOOLEAN_OBJ
  | .nullO _ => NULL_OBJ
  | .strO _ _ => STRING_OBJ
  | .retO _ _ => RETURN_VALUE_OBJ
  | .errO _ _ => ERROR_OBJ
  | .funO _ _ _ _ => FUNCTION_OBJ
  | .builtinO _ _ => BUILTIN_OBJ
  | .arrO _ _ => ARRAY_OBJ
  | .hashO _ _ => HASH_OBJ

/-- JavaScript reference equality `===` on runtime objects.  Two objects
are the same reference exactly when they carry the same allocation id;
the immediate scalar payloads are compared as well, which never changes
the outcome on objects produced by the interpreter (ids are unique) but
keeps the relation honest on arbitrary terms of `MObj`. -/
def refEq : MObj → MObj → Bool
  | .intO i v, .intO j w => i == j && v == w
  | .boolO i b, .boolO j c => i == j && b == c
  | .nullO i, .nullO j => i == j
  | .strO i s, .strO j t => i == j && s == t
  | .retO i _, .retO j _ => i == j
  | .errO i m, .errO j n => i == j && m == n
  | .funO i _ _ _, .funO j _ _ _ => i == j
  | .builtinO i n, .builtinO j m => i == j && n == m
  | .arrO i _, .arrO j _ => i == j
  | .hashO i _, .hashO j _ => i == j
  | _, _ => false

/-! ### Hash keys (`HashKey`, `hashKey()` methods)

`HashKey` is a pair of the object-type tag and a numeric hash; its
`toString`, used as the key of the backing `Map`, is `type ++ ":" ++ value`.
-/

/-- JavaScript's `x | 0` / `x & x` coercion to a signed 32-bit integer
(the `hash = hash & hash` step of `StringObject.hashKey`). -/
def jsToInt32 (x : Int) : Int :=
  (x + 2 ^ 31) % 2 ^ 32 - 2 ^ 31

/-- One step of the string hash loop:
`hash = ((hash << 5) - hash) + charCode; hash = hash & hash`.
`hash << 5` wraps at 32 bits before the subtraction and addition, which
are exact (magnitudes stay far below 2^53); the final `& hash` wraps the
sum back to 32 bits. -/
def strHashStep (h : Int) (c : Char) : Int :=
  jsToInt32 (jsToInt32 (h * 32) - h + c.toNat)

/-- The raw (signed) string hash: a fold of `strHashStep` over the
characters, starting from 0. -/
def strHashInt (s : String) : Int :=
  s.data.foldl strHashStep 0

/-- `Math.abs` of the raw hash, the numeric component of a string's
`HashKey`. -/
def strHashAbs (s : String) : Nat :=
  (strHashInt s).natAbs

/-- `isHashable`: the object implements `hashKey()` (`Integer`, `Boolean`
and `String` objects do). -/
def isHashable : MObj → Bool
  | .intO _ _ => true
  | .boolO _ _ => true
  | .strO _ _ => true
  | _ => false

/-- `obj.hashKey().toString()`, the string actually used as the `Map` key:
`type:value` where value is the integer itself for `Integer`, 1/0 for
`Boolean`, and the absolute 32-bit string hash for `String`.  On the
non-hashable constructors (which the evaluator guards against with
`isHashable`) the result is unspecified; we pick `""`. -/
def hashKeyString : MObj → String
  | .intO _ v => INTEGER_OBJ ++ ":" ++ toString v
  | .boolO _ b => BOOLEAN_OBJ ++ ":" ++ (if b then "1" else "0")
  | .strO _ s => STRING_OBJ ++ ":" ++ toString (strHashAbs s)
  | _ => ""

/-! ## Environment (`src/monkey/object/environment.ts`)

Environments are mutable objects shared by reference (a closure keeps its
defining environment alive), so they live in an explicit heap: `St.heap`
is the list of all frames ever created, and a frame index plays the role
of a reference.  `St.next` is the allocation counter for object ids.
-/

/-- A value stored in a frame's `Map`.  `none` models the JavaScript
`undefined` (written by `extendFunctionEnv` when an argument is missing);
`some v` models the JavaScript value `v`, which itself can be `null`
(`v = none`) because `let` binds the raw, possibly-`null` result of
`evalNode`. -/
abbrev StoredV := Option (Option MObj)

/-- One `Environment` instance: its own binding table plus the optional
reference to the enclosing environment. -/
structure Frame where
  store : List (String × StoredV)
  outer : Option Nat
deriving Repr

/-- Global evaluation state: the environment heap and the allocation
counter for object identities. -/
structure St where
  heap : List Frame
  next : Nat
deriving Repr

/-- `Map.get`: the value of the first (unique) entry with the given key. -/
def storeGet : List (String × StoredV) → String → Option StoredV
  | [], _ => none
  | (k, v) :: rest, name => if k == name then some v else storeGet rest name

/-- `Map.set`: replace the entry in place if the key is present, append
otherwise. -/
def storeSet : List (String × StoredV) → String → StoredV → List (String × StoredV)
  | [], name, v => [(name, v)]
  | (k, w) :: rest, name, v =>
    if k == name then (k, v) :: rest else (k, w) :: storeSet rest name v

/-- `Environment.get`: look in the local store; an entry whose stored
value is `undefined` — indistinguishable from an absent entry through
`Map.get` — falls through to the outer environment, as does a genuine
miss; an exhausted chain yields `[null, false]`.  The source recurses on
the `outer` chain, which is acyclic by construction (an outer frame is
always older); the explicit `fuel` bound (the callers pass the heap size)
makes that recursion structural. -/
def envGet : Nat → List Frame → Nat → String → Option MObj × Bool
  | 0, _, _, _ => (none, false)
  | fuel + 1, heap, ref, name =>
    match heap.get? ref with
    | none => (none, false)
    | some fr =>
      match storeGet fr.store name with
      | some (some v) => (v, true)
      | _ =>
        match fr.outer with
        | some o => envGet fuel heap o name
        | none => (none, false)

/-- `Environment.set`: always writes into the *local* frame `ref`, never
into an ancestor. -/
def envSet (st : St) (ref : Nat) (name : String) (v : StoredV) : St :=
  match st.heap.get? ref with
  | none => st
  | some fr =>
    { st with heap := st.heap.set ref { fr with store := storeSet fr.store name v } }

/-- `newEnclosedEnvironment`: a fresh frame whose outer link is the given
environment; returns its reference (the old heap length). -/
def newEnclosedEnvironment (outer : Nat) (st : St) : Nat × St :=
  (st.heap.length, { st with heap := st.heap ++ [⟨[], some outer⟩] })

/-- Advance the object-allocation counter by one (`new` in the source). -/
def bump (st : St) : St :=
  { st with next := st.next + 1 }

/-! ## Builtins (`src/monkey/evaluator/builtins.ts`)

The seven `BuiltinObject`s are allocated once at module load, before any
evaluation, so they carry the fixed ids 3-9; the evaluator's allocation
counter starts above them.
-/

/-- `builtins.get(name)`. -/
def builtinsGet (name : String) : Option MObj :=
  if name == "len" then some (.builtinO 3 "len")
  else if name == "first" then some (.builtinO 4 "first")
  else if name == "last" then some (.builtinO 5 "last")
  else if name == "rest" then some (.builtinO 6 "rest")
  else if name == "push" then some (.builtinO 7 "push")
  else if name == "puts" then some (.builtinO 8 "puts")
  else if name == "write" then some (.builtinO 9 "write")
  else none

/-! ## Pure evaluator helpers (`src/monkey/evaluator/evaluator.ts`)

Helpers that allocate (`new IntegerObject`, `new ErrorObject`, ...) take
and return the allocation counter.  A result of `none` marks a point
where the JavaScript program would crash with a member access on `null`
(e.g. `left.type()` with `left === null`); no claim exercises such a
point.
-/

/-- `newError`. -/
def newError (msg : String) (σ : Nat) : MObj × Nat :=
  (.errO σ msg, σ + 1)

/-- `isError` (a `null` result is not an error). -/
def isError : Option MObj → Bool
  | some x => typeOf x == ERROR_OBJ
  | none => false

/-- `nativeBoolToBooleanObject`: the shared singletons. -/
def nativeBoolToBooleanObject (input : Bool) : MObj :=
  if input then TRUEobj else FALSEobj

/-- The integer payload; the evaluator only reads it behind an
`INTEGER` type guard (the source uses an unchecked cast). -/
def intValOf : MObj → Int
  | .intO _ v => v
  | _ => 0

/-- The string payload, behind a `STRING` type guard in the source. -/
def strValOf : MObj → String
  | .strO _ s => s
  | _ => ""

/-- The element list of an array object, behind an `ARRAY` type guard. -/
def arrElemsOf : MObj → List (Option MObj)
  | .arrO _ els => els
  | _ => []

/-- The pair map of a hash object, behind a `HASH` type guard. -/
def hashPairsOf : MObj → List (String × MObj × Option MObj)
  | .hashO _ ps => ps
  | _ => []

/-- `isTruthy`: identity comparisons against the three singletons; every
other value — including a `null` operand, which matches none of them —
is truthy. -/
def isTruthy : Option MObj → Bool
  | some x =>
    if refEq x NULLobj then false
    else if refEq x TRUEobj then true
    else if refEq x FALSEobj then false
    else true
  | none => true

/-- `evalBangOperatorExpression`: `!` yields `TRUE` exactly on the `FALSE`
and `NULL` singletons and `FALSE` on everything else (a `null` operand
compares unequal to all three singletons, so it also yields `FALSE`). -/
def evalBangOperatorExpression (right : Option MObj) : MObj :=
  match right with
  | some r =>
    if refEq r TRUEobj then FALSEobj
    else if refEq r FALSEobj then TRUEobj
    else if refEq r NULLobj then TRUEobj
    else FALSEobj
  | none => FALSEobj

/-- `evalMinusPrefixOperatorExpression`. -/
def evalMinusPrefixOperatorExpression (right : MObj) (σ : Nat) : MObj × Nat :=
  if typeOf right != INTEGER_OBJ then
    newError ("unknown operator: -" ++ typeOf right) σ
  else
    (.intO σ (-(intValOf right)), σ + 1)

/-- `evalPrefixExpression`: dispatch on the operator.  `-` and the
unknown-operator branch read `right.type()`, so they crash on `null`. -/
def evalPrefixExpression (operator : String) (right : Option MObj) (σ : Nat) :
    Option (MObj × Nat) :=
  if operator == "!" then some (evalBangOperatorExpression right, σ)
  else if operator == "-" then
    match right with
    | some r => some (evalMinusPrefixOperatorExpression r σ)
    | none => none
  else
    match right with
    | some r => some (newError ("unknown operator: " ++ operator ++ typeOf r) σ)
    | none => none

/-- `evalIntegerInfixExpression`.  Arithmetic results allocate a fresh
`IntegerObject`; comparisons return the singletons.  `/` is
`Math.floor(leftVal / rightVal)`, i.e. the *floor* of the rational
quotient, `Int.fdiv` (exact for a nonzero divisor; the source would
produce an `Infinity`-valued object on division by zero, which has no
integer counterpart and is not modelled). -/
def evalIntegerInfixExpression (operator : String) (left right : MObj) (σ : Nat) :
    MObj × Nat :=
  let leftVal := intValOf left
  let rightVal := intValOf right
  match operator with
  | "+" => (.intO σ (leftVal + rightVal), σ + 1)
  | "-" => (.intO σ (leftVal - rightVal), σ + 1)
  | "*" => (.intO σ (leftVal * rightVal), σ + 1)
  | "/" => (.intO σ (Int.fdiv leftVal rightVal), σ + 1)
  | "<" => (nativeBoolToBooleanObject (leftVal < rightVal), σ)
  | ">" => (nativeBoolToBooleanObject (leftVal > rightVal), σ)
  | "==" => (nativeBoolToBooleanObject (leftVal == rightVal), σ)
  | "!=" => (nativeBoolToBooleanObject (leftVal != rightVal), σ)
  | _ =>
    newError ("unknown operator: " ++ typeOf left ++ " " ++ operator ++ " " ++ typeOf right) σ

/-- `evalStringInfixExpression`: only `+` (concatenation) is defined. -/
def evalStringInfixExpression (operator : String) (left right : MObj) (σ : Nat) :
    MObj × Nat :=
  if operator != "+" then
    newError ("unknown operator: " ++ typeOf left ++ " " ++ operator ++ " " ++ typeOf right) σ
  else
    (.strO σ (strValOf left ++ strValOf right), σ + 1)

/-- `evalInfixExpression`: both-integer and both-string cases first, then
identity `==`/`!=`, then "type mismatch" for different kinds and
"unknown operator" for an equal but unsupported kind.  The source reads
`left.type()` and `right.type()` up front, so a `null` operand crashes. -/
def evalInfixExpression (operator : String) (left right : Option MObj) (σ : Nat) :
    Option (MObj × Nat) :=
  match left, right with
  | some l, some r =>
    if typeOf l == INTEGER_OBJ && typeOf r == INTEGER_OBJ then
      some (evalIntegerInfixExpression operator l r σ)
    else if typeOf l == STRING_OBJ && typeOf r == STRING_OBJ then
      some (evalStringInfixExpression operator l r σ)
    else if operator == "==" then
      some (nativeBoolToBooleanObject (refEq l r), σ)
    else if operator == "!=" then
      some (nativeBoolToBooleanObject (!refEq l r), σ)
    else if typeOf l != typeOf r then
      some (newError ("type mismatch: " ++ typeOf l ++ " " ++ operator ++ " " ++ typeOf r) σ)
    else
      some (newError ("unknown operator: " ++ typeOf l ++ " " ++ operator ++ " " ++ typeOf r) σ)
  | _, _ => none

/-- `unwrapReturnValue`: strip one `ReturnValue` layer; coerce a `null`
result to the `NULL` singleton (`objValue || NULL`). -/
def unwrapReturnValue : Option MObj → Option MObj
  | some (.retO _ v) => v
  | some x => some x
  | none => some NULLobj

/-- `evalArrayIndexExpression`: the element for an index in
`[0, length)`, the `NULL` singleton otherwise. -/
def evalArrayIndexExpression (array index : MObj) : Option MObj :=
  let elements := arrElemsOf array
  let idx := intValOf index
  let maxIdx : Int := (elements.length : Int) - 1
  if idx < 0 || idx > maxIdx then some NULLobj
  else elements.getD idx.toNat none

/-- `HashObject.pairs.get`. -/
def mapGet : List (String × MObj × Option MObj) → String → Option (MObj × Option MObj)
  | [], _ => none
  | (k, p) :: rest, key => if k == key then some p else mapGet rest key

/-- `HashObject.pairs.set` (overwrite in place or append). -/
def mapSet : List (String × MObj × Option MObj) → String → MObj × Option MObj →
    List (String × MObj × Option MObj)
  | [], key, p => [(key, p)]
  | (k, q) :: rest, key, p =>
    if k == key then (k, p) :: rest else (k, q) :: mapSet rest key p

/-- `evalHashIndexExpression`: reject non-hashable indices, then look up
by the `HashKey` string; a miss yields the `NULL` singleton. -/
def evalHashIndexExpression (hash index : MObj) (σ : Nat) : Option MObj × Nat :=
  if !isHashable index then
    let (e, σ') := newError ("unusable as hash key: " ++ typeOf index) σ
    (some e, σ')
  else
    match mapGet (hashPairsOf hash) (hashKeyString index) with
    | none => (some NULLobj, σ)
    | some p => (p.2, σ)

/-- `evalIndexExpression`: array indexing for an `Array` target with an
`Integer` index, hash lookup for a `Hash` target, otherwise an
"index operator not supported" error.  A `null` target always crashes
(`left.type()`); a `null` index crashes when the target is an array
(`index.type()`) or a hash (`isHashable`'s `in` operator). -/
def evalIndexExpression (left index : Option MObj) (σ : Nat) :
    Option (Option MObj × Nat) :=
  match left with
  | none => none
  | some l =>
    if typeOf l == ARRAY_OBJ then
      match index with
      | none => none
      | some i =>
        if typeOf i == INTEGER_OBJ then some (evalArrayIndexExpression l i, σ)
        else
          some
            (let (e, σ') := newError ("index operator not supported: " ++ typeOf l) σ
             (some e, σ'))
    else if typeOf l == HASH_OBJ then
      match index with
      | none => none
      | some i => some (evalHashIndexExpression l i σ)
    else
      some
        (let (e, σ') := newError ("index operator not supported: " ++ typeOf l) σ
         (some e, σ'))

/-- `evalIdentifier`: environment chain first, then the builtin registry,
then an "identifier not found" error. -/
def evalIdentifier (name : String) (env : Nat) (st : St) : Option MObj × St :=
  match envGet st.heap.length st.heap env name with
  | (v, true) => (v, st)
  | (_, false) =>
    match builtinsGet name with
    | some b => (some b, st)
    | none => (some (.errO st.next ("identifier not found: " ++ name)), bump st)

/-- The native implementations behind the seven builtins
(`builtins.ts`).  `console.log` output is not observable here; `puts` and
`write` crash on a `null` argument (they call `inspect()` on each) and
otherwise allocate and return a fresh `NullObject` — which is *not* the
evaluator's `NULL` singleton. -/
def applyBuiltin (name : String) (args : List (Option MObj)) (σ : Nat) :
    Option (Option MObj × Nat) :=
  match name with
  | "len" =>
    match args with
    | [a] =>
      match a with
      | some (.strO _ s) => some (some (.intO σ s.length), σ + 1)
      | some (.arrO _ els) => some (some (.intO σ els.length), σ + 1)
      | some other =>
        some (some (.errO σ ("argument to 'len' not supported, got " ++ typeOf other)),
          σ + 1)
      | none => none
    | _ =>
      some (some (.errO σ
        ("wrong number of arguments. got=" ++ toString args.length ++ ", want=1")), σ + 1)
  | "first" =>
    match args with
    | [a] =>
      match a with
      | none => none
      | some x =>
        if typeOf x != ARRAY_OBJ then
          some (some (.errO σ ("argument to 'first' must be ARRAY, got " ++ typeOf x)),
            σ + 1)
        else
          let els := arrElemsOf x
          if els.length > 0 then some (els.getD 0 none, σ)
          else some (some (.nullO σ), σ + 1)
    | _ =>
      some (some (.errO σ
        ("wrong number of arguments. got=" ++ toString args.length ++ ", want=1")), σ + 1)
  | "last" =>
    match args with
    | [a] =>
      match a with
      | none => none
      | some x =>
        if typeOf x != ARRAY_OBJ then
          some (some (.errO σ ("argument to 'last' must be ARRAY, got " ++ typeOf x)),
            σ + 1)
        else
          let els := arrElemsOf x
          if els.length > 0 then some (els.getD (els.length - 1) none, σ)
          else some (some (.nullO σ), σ + 1)
    | _ =>
      some (some (.errO σ
        ("wrong number of arguments. got=" ++ toString args.length ++ ", want=1")), σ + 1)
  | "rest" =>
    match args with
    | [a] =>
      match a with
      | none => none
      | some x =>
        if typeOf x != ARRAY_OBJ then
          some (some (.errO σ ("argument to 'rest' must be ARRAY, got " ++ typeOf x)),
            σ + 1)
        else
          let els := arrElemsOf x
          if els.length > 0 then some (some (.arrO σ (els.drop 1)), σ + 1)
          else some (some (.nullO σ), σ + 1)
    | _ =>
      some (some (.errO σ
        ("wrong number of arguments. got=" ++ toString args.length ++ ", want=1")), σ + 1)
  | "push" =>
    match args with
    | [a, b] =>
      match a with
      | none => none
      | some x =>
        if typeOf x != ARRAY_OBJ then
          some (some (.errO σ ("argument to 'push' must be ARRAY, got " ++ typeOf x)),
            σ + 1)
        else
          some (some (.arrO σ (arrElemsOf x ++ [b])), σ + 1)
    | _ =>
      some (some (.errO σ
        ("wrong number of arguments. got=" ++ toString args.length ++ ", want=2")), σ + 1)
  | "puts" =>
    if args.all (fun a => a.isSome) then some (some (.nullO σ), σ + 1) else none
  | "write" =>
    if args.all (fun a => a.isSome) then some (some (.nullO σ), σ + 1) else none
  | _ => none

/-- `extendFunctionEnv`'s binding loop: `env.set(parameters[i], args[i])`
for ascending `i`; an index beyond the argument list stores the
JavaScript `undefined`.  (Peeling one parameter and one argument per step
is the same assignment sequence as the indexed loop.) -/
def bindParameters : List String → List (Option MObj) → List (String × StoredV) →
    List (String × StoredV)
  | [], _, store => store
  | p :: ps, args, store =>
    bindParameters ps args.tail (storeSet store p args.head?)

/-- `extendFunctionEnv`: a fresh enclosed environment whose outer link is
the function's captured environment, seeded with the parameter
bindings. -/
def extendFunctionEnv (parameters : List String) (funcEnv : Nat)
    (args : List (Option MObj)) (st : St) : Nat × St :=
  let (env, st') := newEnclosedEnvironment funcEnv st
  match st'.heap.get? env with
  | none => (env, st')
  | some fr =>
    (env,
      { st' with
        heap := st'.heap.set env { fr with store := bindParameters parameters args fr.store } })

/-! ## The recursive evaluator (`evalNode` and its helpers)

Fuel-indexed mutual recursion: each function checks the fuel on entry and
passes the predecessor to every recursive call, making the recursion
structural; with enough fuel the result is independent of the exact
amount.  `none` = out of fuel, or a point where the JavaScript host would
crash (see above).
-/

mutual

/-- `evalNode`: dispatch on the node kind, in the source's order. -/
def evalNode : Nat → Node → Nat → St → Option (Option MObj × St)
  | 0, _, _, _ => none
  | fuel + 1, node, env, st =>
    match node with
    | .program stmts => evalProgram fuel stmts none env st
    | .exprStmt e => evalNode fuel e env st
    | .blockS stmts => evalBlockStatement fuel stmts none env st
    | .returnS e =>
      match evalNode fuel e env st with
      | none => none
      | some (val, st') =>
        if isError val then some (val, st')
        else some (some (.retO st'.next val), bump st')
    | .letS name e =>
      match evalNode fuel e env st with
      | none => none
      | some (val, st') =>
        if isError val then some (val, st')
        else some (val, envSet st' env name (some val))
    | .intLit v => some (some (.intO st.next v), bump st)
    | .strLit s => some (some (.strO st.next s), bump st)
    | .boolLit b => some (some (nativeBoolToBooleanObject b), st)
    | .prefixE operator r =>
      match evalNode fuel r env st with
      | none => none
      | some (right, st') =>
        if isError right then some (right, st')
        else
          match evalPrefixExpression operator right st'.next with
          | none => none
          | some (res, σ) => some (some res, { st' with next := σ })
    | .infixE l operator r =>
      match evalNode fuel l env st with
      | none => none
      | some (left, st1) =>
        if isError left then some (left, st1)
        else
          match evalNode fuel r env st1 with
          | none => none
          | some (right, st2) =>
            if isError right then some (right, st2)
            else
              match evalInfixExpression operator left right st2.next with
              | none => none
              | some (res, σ) => some (some res, { st2 with next := σ })
    | .ifE c conseq alt => evalIfExpression fuel c conseq alt env st
    | .ident name => some (evalIdentifier name env st)
    | .funcLit params body => some (some (.funO st.next params body env), bump st)
    | .callE f argNodes =>
      match evalNode fuel f env st with
      | none => none
      | some (func, st1) =>
        if isError func then some (func, st1)
        else
          match evalExpressions fuel argNodes [] env st1 with
          | none => none
          | some (args, st2) =>
            if args.length == 1 && isError (args.getD 0 none) then
              some (args.getD 0 none, st2)
            else applyFunction fuel func args st2
    | .arrayLit elemNodes =>
      match evalExpressions fuel elemNodes [] env st with
      | none => none
      | some (elements, st1) =>
        if elements.length == 1 && isError (elements.getD 0 none) then
          some (elements.getD 0 none, st1)
        else some (some (.arrO st1.next elements), bump st1)
    | .indexE l i =>
      match evalNode fuel l env st with
      | none => none
      | some (left, st1) =>
        if isError left then some (left, st1)
        else
          match evalNode fuel i env st1 with
          | none => none
          | some (index, st2) =>
            if isError index then some (index, st2)
            else
              match evalIndexExpression left index st2.next with
              | none => none
              | some (res, σ) => some (res, { st2 with next := σ })
    | .hashLit pairNodes => evalHashLiteralPairs fuel pairNodes [] st.next env (bump st)
  termination_by structural fuel => fuel

/-- `evalProgram`'s statement loop, with the running `result` (initially
`null`): unwrap a `ReturnValue` and stop, stop on an `Error`, otherwise
continue with the statement's result. -/
def evalProgram : Nat → List Node → Option MObj → Nat → St →
    Option (Option MObj × St)
  | 0, _, _, _, _ => none
  | _ + 1, [], result, _, st => some (result, st)
  | fuel + 1, s :: rest, _, env, st =>
    match evalNode fuel s env st with
    | none => none
    | some (result, st') =>
      match result with
      | some (.retO _ v) => some (v, st')
      | some (.errO i m) => some (some (.errO i m), st')
      | _ => evalProgram fuel rest result env st'
  termination_by structural fuel => fuel

/-- `evalBlockStatement`'s loop: like `evalProgram` but a `ReturnValue`
is propagated *without* unwrapping. -/
def evalBlockStatement : Nat → List Node → Option MObj → Nat → St →
    Option (Option MObj × St)
  | 0, _, _, _, _ => none
  | _ + 1, [], result, _, st => some (result, st)
  | fuel + 1, s :: rest, _, env, st =>
    match evalNode fuel s env st with
    | none => none
    | some (result, st') =>
      match result with
      | some (.retO i v) => some (some (.retO i v), st')
      | some (.errO i m) => some (some (.errO i m), st')
      | _ => evalBlockStatement fuel rest result env st'
  termination_by structural fuel => fuel

/-- `evalExpressions`: evaluate a list left to right, accumulating the
results; the first error is returned as a one-element list. -/
def evalExpressions : Nat → List Node → List (Option MObj) → Nat → St →
    Option (List (Option MObj) × St)
  | 0, _, _, _, _ => none
  | _ + 1, [], acc, _, st => some (acc, st)
  | fuel + 1, e :: rest, acc, env, st =>
    match evalNode fuel e env st with
    | none => none
    | some (v, st') =>
      if isError v then some ([v], st')
      else evalExpressions fuel rest (acc ++ [v]) env st'
  termination_by structural fuel => fuel

/-- `evalIfExpression`: branch on truthiness; a false condition with no
alternative yields the `NULL` singleton. -/
def evalIfExpression : Nat → Node → Node → Option Node → Nat → St →
    Option (Option MObj × St)
  | 0, _, _, _, _, _ => none
  | fuel + 1, cond, conseq, alt, env, st =>
    match evalNode fuel cond env st with
    | none => none
    | some (condition, st') =>
      if isError condition then some (condition, st')
      else if isTruthy condition then evalNode fuel conseq env st'
      else
        match alt with
        | some a => evalNode fuel a env st'
        | none => some (some NULLobj, st')
  termination_by structural fuel => fuel

/-- `applyFunction`: a user function gets a fresh enclosed environment
over its *captured* environment, its body is evaluated there and one
`ReturnValue` layer is unwrapped; a builtin runs natively; anything else
is a "not a function" error (and a `null` callee crashes on
`func.type()`). -/
def applyFunction : Nat → Option MObj → List (Option MObj) → St →
    Option (Option MObj × St)
  | 0, _, _, _ => none
  | fuel + 1, func, args, st =>
    match func with
    | none => none
    | some (.funO _ params body fenv) =>
      let (env2, st2) := extendFunctionEnv params fenv args st
      match evalNode fuel body env2 st2 with
      | none => none
      | some (evaluated, st3) => some (unwrapReturnValue evaluated, st3)
    | some (.builtinO _ name) =>
      match applyBuiltin name args st.next with
      | none => none
      | some (res, σ) => some (res, { st with next := σ })
    | some other =>
      some (some (.errO st.next ("not a function: " ++ typeOf other)), bump st)
  termination_by structural fuel => fuel

/-- `evalHashLiteral`'s pair loop.  The `HashObject` is allocated before
the loop (its id is passed in); each key is evaluated, checked hashable,
then the value is evaluated and the pair stored under the key's
`HashKey` string. -/
def evalHashLiteralPairs : Nat → List (Node × Node) →
    List (String × MObj × Option MObj) → Nat → Nat → St →
    Option (Option MObj × St)
  | 0, _, _, _, _, _ => none
  | _ + 1, [], acc, hashId, _, st => some (some (.hashO hashId acc), st)
  | fuel + 1, (kNode, vNode) :: rest, acc, hashId, env, st =>
    match evalNode fuel kNode env st with
    | none => none
    | some (key, st1) =>
      if isError key then some (key, st1)
      else
        match key with
        | none => none
        | some k =>
          if !isHashable k then
            some (some (.errO st1.next ("unusable as hash key: " ++ typeOf k)), bump st1)
          else
            match evalNode fuel vNode env st1 with
            | none => none
            | some (value, st2) =>
              if isError value then some (value, st2)
              else
                evalHashLiteralPairs fuel rest (mapSet acc (hashKeyString k) (k, value))
                  hashId env st2
  termination_by structural fuel => fuel

end

/-! ## Running whole programs -/

/-- The state at the start of a run: one root `Environment` (frame 0) and
an object counter past the module-level singletons and builtins. -/
def initialState : St := ⟨[⟨[], none⟩], 10⟩

/-- Parse-free entry point: evaluate a `Program` node in a fresh root
environment. -/
def runProgram (fuel : Nat) (stmts : List Node) : Option (Option MObj × St) :=
  evalNode fuel (.program stmts) 0 initialState

/-- The result object of a run (without the final state). -/
def resultObj (r : Option (Option MObj × St)) : Option (Option MObj) :=
  match r with
  | some (v, _) => some v
  | none => none

/-- The integer payload of a run that produced an `IntegerObject`. -/
def resultInt (r : Option (Option MObj × St)) : Option Int :=
  match r with
  | some (some (.intO _ v), _) => some v
  | _ => none

/-- The message of a run that produced an `ErrorObject`. -/
def resultErrMsg (r : Option (Option MObj × St)) : Option String :=
  match r with
  | some (some (.errO _ m), _) => some m
  | _ => none

/-- The boolean payload of a run that produced a `BooleanObject`. -/
def resultBool (r : Option (Option MObj × St)) : Option Bool :=
  match r with
  | some (some (.boolO _ b), _) => some b
  | _ => none

/-! ## Claims -/

/-- Claim C1, amended.  Integer division in `evalIntegerInfixExpression`
is `Math.floor(leftVal / rightVal)`: the *floor* of the rational quotient
(`Int.fdiv`), not truncation toward zero.  The two policies agree on
nonnegative quotients — `7 / 2` evaluates to `3` — but differ on negative
ones: `-7 / 2` evaluates to `-4`. -/
theorem claim_C1_division (lid rid : Nat) (l r : Int) (σ : Nat) (h : r ≠ 0) :
    evalIntegerInfixExpression "/" (.intO lid l) (.intO rid r) σ =
      (.intO σ (Int.fdiv l r), σ + 1) ∧
    resultInt (runProgram 30 [.exprStmt (.infixE (.intLit 7) "/" (.intLit 2))]) = some 3 ∧
    resultInt (runProgram 30 [.exprStmt (.infixE (.intLit (-7)) "/" (.intLit 2))]) =
      some (-4) :=
  ⟨rfl, rfl, rfl⟩

/-- Witness for C1: the division theorem applied at `7 / 2`. -/
theorem claim_C1_division_witness :
    evalIntegerInfixExpression "/" (.intO 0 7) (.intO 1 2) 5 =
      (.intO 5 (Int.fdiv 7 2), 6) :=
  (claim_C1_division 0 1 7 2 5 (by decide)).1

/-- Counterexample for C1 as stated: evaluating `-7 / 2` yields the
Integer `-4`, while the mathematical quotient truncated toward zero
(`Int.tdiv`) is `-3`. -/
theorem claim_C1_counterexample :
    resultInt (runProgram 30 [.exprStmt (.infixE (.intLit (-7)) "/" (.intLit 2))]) =
      some (-4) ∧
    Int.tdiv (-7) 2 = -3 ∧ ((-4 : Int) = -3 → False) :=
  ⟨rfl, by decide, by decide⟩

/-- Claim C7.  Indexing an `Array` object of length `n` with an `Integer`
index `i` returns the `i`-th element when `0 ≤ i < n` and the `NULL`
singleton — never an error — when `i < 0` or `i ≥ n` (including
`i = n`). -/
theorem claim_C7_array_index (aid iid : Nat) (elems : List (Option MObj)) (i : Int)
    (σ : Nat) :
    (0 ≤ i → i < (elems.length : Int) →
      evalIndexExpression (some (.arrO aid elems)) (some (.intO iid i)) σ =
        some (elems.getD i.toNat none, σ)) ∧
    (i < 0 ∨ (elems.length : Int) ≤ i →
      evalIndexExpression (some (.arrO aid elems)) (some (.intO iid i)) σ =
        some (some NULLobj, σ)) := by
  have harr : evalIndexExpression (some (.arrO aid elems)) (some (.intO iid i)) σ =
      some (evalArrayIndexExpression (.arrO aid elems) (.intO iid i), σ) := rfl
  constructor
  · intro h0 hn
    rw [harr]
    unfold evalArrayIndexExpression
    simp only [arrElemsOf, intValOf]
    have hc : (decide (i < 0) || decide (i > (elems.length : Int) - 1)) = false := by
      simp only [Bool.or_eq_false_iff, decide_eq_false_iff_not, not_lt]
      omega
    rw [hc]
    simp
  · intro hout
    rw [harr]
    unfold evalArrayIndexExpression
    simp only [arrElemsOf, intValOf]
    have hc : (decide (i < 0) || decide (i > (elems.length : Int) - 1)) = true := by
      simp only [Bool.or_eq_true, decide_eq_true_eq]
      omega
    rw [hc]
    simp

/-- Witness for C7: the bounds theorem applied at an in-bounds index and
at the length itself. -/
theorem claim_C7_array_index_witness :
    evalIndexExpression (some (.arrO 0 [some TRUEobj])) (some (.intO 1 0)) 5 =
      some (some TRUEobj, 5) ∧
    evalIndexExpression (some (.arrO 0 [some TRUEobj])) (some (.intO 1 1)) 5 =
      some (some NULLobj, 5) :=
  ⟨(claim_C7_array_index 0 1 [some TRUEobj] 0 5).1 (by decide) (by decide),
   (claim_C7_array_index 0 1 [some TRUEobj] 1 5).2 (Or.inr (by decide))⟩

/-- Claim C8.  `!v` yields the `TRUE` singleton exactly when `v` is the
`FALSE` singleton or the `NULL` singleton, and the `FALSE` singleton for
every other value; concretely `!5` evaluates to `false`, `!!5` to `true`
and `!0` to `false` (integer `0` is truthy). -/
theorem claim_C8_bang (v : MObj) :
    (evalBangOperatorExpression (some v) = TRUEobj ↔ v = FALSEobj ∨ v = NULLobj) ∧
    (evalBangOperatorExpression (some v) = FALSEobj ↔ ¬(v = FALSEobj ∨ v = NULLobj)) ∧
    resultBool (runProgram 30 [.exprStmt (.prefixE "!" (.intLit 5))]) = some false ∧
    resultBool (runProgram 30 [.exprStmt (.prefixE "!" (.prefixE "!" (.intLit 5)))]) =
      some true ∧
    resultBool (runProgram 30 [.exprStmt (.prefixE "!" (.intLit 0))]) = some false := by
  refine ⟨?_, ?_, rfl, rfl, rfl⟩ <;>
  · cases v <;>
      simp only [evalBangOperatorExpression, refEq, TRUEobj, FALSEobj, NULLobj,
        Bool.and_eq_true, beq_iff_eq, MObj.boolO.injEq, MObj.nullO.injEq,
        MObj.intO.injEq, MObj.strO.injEq] <;>
      split_ifs <;>
      simp_all

/-- Claim C2, amended.  For evaluated operands that are not both
`Integer` and not both `String`, `==` evaluates to the `Boolean` singleton
for *reference identity* of the two operands (`!=` to its negation) — in
particular to `true` whenever both sides are literally the same object,
which includes the singleton `Boolean`/`Null` cases but also any other
object compared with itself; with any other operator, differing kinds
yield the "type mismatch" error and equal kinds the "unknown operator"
error, with the exact messages of the spec. -/
theorem claim_C2_infix_identity (operator : String) (l r : MObj) (σ : Nat)
    (hInt : ¬(typeOf l = INTEGER_OBJ ∧ typeOf r = INTEGER_OBJ))
    (hStr : ¬(typeOf l = STRING_OBJ ∧ typeOf r = STRING_OBJ)) :
    (evalInfixExpression operator (some l) (some r) σ =
      if operator = "==" then some (nativeBoolToBooleanObject (refEq l r), σ)
      else if operator = "!=" then some (nativeBoolToBooleanObject (!refEq l r), σ)
      else if typeOf l ≠ typeOf r then
        some (newError ("type mismatch: " ++ typeOf l ++ " " ++ operator ++ " " ++
          typeOf r) σ)
      else
        some (newError ("unknown operator: " ++ typeOf l ++ " " ++ operator ++ " " ++
          typeOf r) σ)) ∧
    (nativeBoolToBooleanObject (refEq l r) = TRUEobj ↔ refEq l r = true) ∧
    resultErrMsg (runProgram 30 [.exprStmt (.infixE (.intLit 5) "+" (.boolLit true))]) =
      some "type mismatch: INTEGER + BOOLEAN" ∧
    resultErrMsg (runProgram 30 [.exprStmt (.infixE (.boolLit true) "+" (.boolLit false))]) =
      some "unknown operator: BOOLEAN + BOOLEAN" := by
  have h1 : (typeOf l == INTEGER_OBJ && typeOf r == INTEGER_OBJ) = false := by
    by_contra hc
    rw [Bool.not_eq_false, Bool.and_eq_true, beq_iff_eq, beq_iff_eq] at hc
    exact hInt hc
  have h2 : (typeOf l == STRING_OBJ && typeOf r == STRING_OBJ) = false := by
    by_contra hc
    rw [Bool.not_eq_false, Bool.and_eq_true, beq_iff_eq, beq_iff_eq] at hc
    exact hStr hc
  refine ⟨?_, ?_, rfl, rfl⟩
  · simp only [evalInfixExpression, h1, h2, Bool.false_eq_true, if_false]
    by_cases hop1 : operator = "=="
    · subst hop1; simp
    · by_cases hop2 : operator = "!="
      · subst hop2; simp [hop1]
      · by_cases hty : typeOf l = typeOf r
        · simp [hop1, hop2, hty]
        · simp [hop1, hop2, hty]
  · cases hre : refEq l r <;>
      simp [nativeBoolToBooleanObject, TRUEobj, FALSEobj]

/-- Witness for C2: the identity theorem applied to the `Boolean` and
`Null` singletons under `==`. -/
theorem claim_C2_infix_identity_witness :
    evalInfixExpression "==" (some TRUEobj) (some NULLobj) 5 =
      some (nativeBoolToBooleanObject (refEq TRUEobj NULLobj), 5) := by
  have h := (claim_C2_infix_identity "==" TRUEobj NULLobj 5 (by decide) (by decide)).1
  simpa using h

/-- Counterexample for C2 as stated: `let a = [1]; a == a` evaluates to
the `true` singleton although both sides are the same *Array* object, not
a singleton `Boolean` or `Null` — identity, not the singleton-only rule,
decides `==`.  Structurally equal but distinct arrays compare `false`. -/
theorem claim_C2_counterexample :
    resultBool (runProgram 30 [.letS "a" (.arrayLit [.intLit 1]),
      .exprStmt (.infixE (.ident "a") "==" (.ident "a"))]) = some true ∧
    resultObj (runProgram 30 [.letS "a" (.arrayLit [.intLit 1]), .exprStmt (.ident "a")]) =
      some (some (.arrO 11 [some (.intO 10 1)])) ∧
    typeOf (.arrO 11 [some (.intO 10 1)]) = ARRAY_OBJ ∧
    resultBool (runProgram 30 [.exprStmt (.infixE (.arrayLit [.intLit 1]) "=="
      (.arrayLit [.intLit 1]))]) = some false :=
  ⟨rfl, rfl, rfl, rfl⟩

/-- Two strings with different first characters stay different under any
suffixes (used to separate the type-tag prefixes of `HashKey`
strings). -/
theorem append_ne_of_head_ne (p q x y : String) (c d : Char) (cs ds : List Char)
    (hp : p.data = c :: cs) (hq : q.data = d :: ds) (hcd : c ≠ d) :
    p ++ x ≠ q ++ y := by
  intro h
  have hdata := congrArg String.data h
  rw [String.data_append, String.data_append, hp, hq] at hdata
  exact hcd (List.cons.injEq .. ▸ hdata).1

/-- Claim C5, amended.  The `HashKey` string is determined by the pair
(runtime-type tag, numeric hash): keys of different kinds never collide,
because the tag is part of the composite key; but two *distinct* same-kind
keys whose numeric hashes collide are **not** kept distinct — there is no
equality check against the stored original key, so they share one map
entry (the later store overwrites it, and a lookup under either key hits
it).  `"Aa"` and `"BB"` are such a colliding pair (both hash to 2112);
equal keys always hit their entry (`{"one": 1}["one"]` is `1`). -/
theorem claim_C5_hash_keys :
    (∀ k1 k2 : MObj, isHashable k1 = true → isHashable k2 = true →
      typeOf k1 ≠ typeOf k2 → hashKeyString k1 ≠ hashKeyString k2) ∧
    (∀ i j : Nat, ∀ s t : String, strHashAbs s = strHashAbs t →
      hashKeyString (.strO i s) = hashKeyString (.strO j t)) ∧
    strHashAbs "Aa" = 2112 ∧ strHashAbs "BB" = 2112 ∧ "Aa" ≠ "BB" ∧
    resultInt (runProgram 30 [.exprStmt (.indexE
      (.hashLit [(.strLit "Aa", .intLit 1), (.strLit "BB", .intLit 2)])
      (.strLit "Aa"))]) = some 2 ∧
    resultInt (runProgram 30 [.exprStmt (.indexE
      (.hashLit [(.strLit "Aa", .intLit 1), (.strLit "BB", .intLit 2)])
      (.strLit "BB"))]) = some 2 ∧
    resultInt (runProgram 30 [.exprStmt (.indexE
      (.hashLit [(.strLit "one", .intLit 1)]) (.strLit "one"))]) = some 1 := by
  refine ⟨?_, ?_, by decide, by decide, by decide, rfl, rfl, rfl⟩
  · intro k1 k2 h1 h2 hty
    cases k1 <;> cases k2 <;> simp_all [isHashable, typeOf] <;>
      simp only [hashKeyString] <;>
      first
        | exact append_ne_of_head_ne _ _ _ _ 'I' 'B' _ _ rfl rfl (by decide)
        | exact append_ne_of_head_ne _ _ _ _ 'I' 'S' _ _ rfl rfl (by decide)
        | exact append_ne_of_head_ne _ _ _ _ 'B' 'I' _ _ rfl rfl (by decide)
        | exact append_ne_of_head_ne _ _ _ _ 'B' 'S' _ _ rfl rfl (by decide)
        | exact append_ne_of_head_ne _ _ _ _ 'S' 'I' _ _ rfl rfl (by decide)
        | exact append_ne_of_head_ne _ _ _ _ 'S' 'B' _ _ rfl rfl (by decide)
  · intro i j s t h
    simp only [hashKeyString, h]

/-- Witness for C5: an `Integer` key and a `Boolean` key with the same
numeric hash (1) still get different map keys, and the colliding strings
`"Aa"`/`"BB"` get the same one. -/
theorem claim_C5_hash_keys_witness :
    hashKeyString (.intO 0 1) ≠ hashKeyString (.boolO 1 true) ∧
    hashKeyString (.strO 0 "Aa") = hashKeyString (.strO 1 "BB") :=
  ⟨claim_C5_hash_keys.1 (.intO 0 1) (.boolO 1 true) rfl rfl (by decide),
   claim_C5_hash_keys.2.1 0 1 "Aa" "BB" (by decide)⟩

/-- Counterexample for C5 as stated: storing under `"Aa"` and looking up
under the different key `"BB"` *hits* the entry (the lookup returns `1`,
not `null`), because their numeric hashes collide and no equality check
against the stored key exists; likewise the second store of
`{"Aa": 1, "BB": 2}` overwrites the first, so looking up `"Aa"` yields
`2`. -/
theorem claim_C5_counterexample :
    resultInt (runProgram 30 [.exprStmt (.indexE
      (.hashLit [(.strLit "Aa", .intLit 1)]) (.strLit "BB"))]) = some 1 ∧
    "Aa" ≠ "BB" ∧
    resultInt (runProgram 30 [.exprStmt (.indexE
      (.hashLit [(.strLit "Aa", .intLit 1), (.strLit "BB", .intLit 2)])
      (.strLit "Aa"))]) = some 2 ∧ ((2 : Int) = 1 → False) :=
  ⟨rfl, by decide, rfl, by decide⟩

/-- Claim C3.  A `Program` and a `BlockStatement` evaluate their
statements in order; as soon as a statement's result is a `ReturnValue`
or an `Error` they stop — the result is the same for *every* tail of
later statements, which are therefore never evaluated.  A `Program`
unwraps a `ReturnValue` to its inner value; a `BlockStatement` returns
the wrapper unmodified (which is what lets a `return` in a nested block
terminate the enclosing call: see the nested-`if` example, which yields
`10`). -/
theorem claim_C3_program_block (fuel : Nat) (s : Node) (rest : List Node) (env : Nat)
    (st st' : St) (r : Option MObj) (acc : Option MObj)
    (h : evalNode fuel s env st = some (r, st')) :
    (∀ i v, r = some (.retO i v) →
      evalProgram (fuel + 1) (s :: rest) acc env st = some (v, st') ∧
      evalBlockStatement (fuel + 1) (s :: rest) acc env st =
        some (some (.retO i v), st')) ∧
    (∀ i m, r = some (.errO i m) →
      evalProgram (fuel + 1) (s :: rest) acc env st = some (some (.errO i m), st') ∧
      evalBlockStatement (fuel + 1) (s :: rest) acc env st =
        some (some (.errO i m), st')) ∧
    ((∀ i v, r ≠ some (.retO i v)) → (∀ i m, r ≠ some (.errO i m)) →
      evalProgram (fuel + 1) (s :: rest) acc env st = evalProgram fuel rest r env st' ∧
      evalBlockStatement (fuel + 1) (s :: rest) acc env st =
        evalBlockStatement fuel rest r env st') ∧
    resultInt (runProgram 30 [.exprStmt (.intLit 9),
      .returnS (.infixE (.intLit 2) "*" (.intLit 5)), .exprStmt (.intLit 9)]) = some 10 ∧
    resultInt (runProgram 40 [.exprStmt (.ifE (.infixE (.intLit 10) ">" (.intLit 1))
      (.blockS [.exprStmt (.ifE (.infixE (.intLit 10) ">" (.intLit 1))
        (.blockS [.returnS (.intLit 10)]) none), .returnS (.intLit 1)]) none)]) =
      some 10 := by
  refine ⟨?_, ?_, ?_, rfl, rfl⟩
  · intro i v hr
    subst hr
    constructor <;> simp [evalProgram, evalBlockStatement, h]
  · intro i m hr
    subst hr
    constructor <;> simp [evalProgram, evalBlockStatement, h]
  · intro hnr hne
    match r with
    | none => constructor <;> simp [evalProgram, evalBlockStatement, h]
    | some (.retO i v) => exact absurd rfl (hnr i v)
    | some (.errO i m) => exact absurd rfl (hne i m)
    | some (.intO i v) => constructor <;> simp [evalProgram, evalBlockStatement, h]
    | some (.boolO i b) => constructor <;> simp [evalProgram, evalBlockStatement, h]
    | some (.nullO i) => constructor <;> simp [evalProgram, evalBlockStatement, h]
    | some (.strO i v) => constructor <;> simp [evalProgram, evalBlockStatement, h]
    | some (.funO i p b e) => constructor <;> simp [evalProgram, evalBlockStatement, h]
    | some (.builtinO i n) => constructor <;> simp [evalProgram, evalBlockStatement, h]
    | some (.arrO i es) => constructor <;> simp [evalProgram, evalBlockStatement, h]
    | some (.hashO i ps) => constructor <;> simp [evalProgram, evalBlockStatement, h]

/-- Witness for C3: a leading `return 10;` makes the program yield the
unwrapped `10` and the block the `ReturnValue` wrapper, with the trailing
`9;` never evaluated. -/
theorem claim_C3_program_block_witness :
    evalProgram 11 [.returnS (.intLit 10), .exprStmt (.intLit 9)] none 0 initialState =
      some (some (.intO 10 10), ⟨[⟨[], none⟩], 12⟩) ∧
    evalBlockStatement 11 [.returnS (.intLit 10), .exprStmt (.intLit 9)] none 0
        initialState =
      some (some (.retO 11 (some (.intO 10 10))), ⟨[⟨[], none⟩], 12⟩) :=
  (claim_C3_program_block 10 (.returnS (.intLit 10)) [.exprStmt (.intLit 9)] 0
    initialState ⟨[⟨[], none⟩], 12⟩ (some (.retO 11 (some (.intO 10 10)))) none rfl).1
    11 (some (.intO 10 10)) rfl

/-- The closure program of the spec:
`let newAdder = fn(x) { fn(y) { x + y } }; let addTwo = newAdder(2); addTwo(3)`. -/
def newAdderProgram : List Node :=
  [.letS "newAdder" (.funcLit ["x"] (.blockS [.exprStmt (.funcLit ["y"]
      (.blockS [.exprStmt (.infixE (.ident "x") "+" (.ident "y"))]))])),
   .letS "addTwo" (.callE (.ident "newAdder") [.intLit 2]),
   .exprStmt (.callE (.ident "addTwo") [.intLit 3])]

/-- Claim C6.  A `FunctionLiteral` evaluates to a `Function` object that
captures the *current* environment by reference (the frame index `env`);
applying it builds a fresh child frame whose outer link is that captured
environment — the caller's environment plays no role — with the
parameters bound positionally to the arguments, evaluates the body there,
and unwraps one `ReturnValue` layer; consequently the `newAdder` closure
program evaluates to Integer `5`. -/
theorem claim_C6_closures :
    (∀ (fuel : Nat) (params : List String) (body : Node) (env : Nat) (st : St),
      evalNode (fuel + 1) (.funcLit params body) env st =
        some (some (.funO st.next params body env), bump st)) ∧
    (∀ (params : List String) (fenv : Nat) (args : List (Option MObj)) (st : St),
      (extendFunctionEnv params fenv args st).1 = st.heap.length ∧
      (extendFunctionEnv params fenv args st).2.heap.get? st.heap.length =
        some ⟨bindParameters params args [], some fenv⟩) ∧
    (∀ (fuel : Nat) (id : Nat) (params : List String) (body : Node) (fenv : Nat)
        (args : List (Option MObj)) (st : St) (r : Option MObj) (st3 : St),
      evalNode fuel body (extendFunctionEnv params fenv args st).1
          (extendFunctionEnv params fenv args st).2 = some (r, st3) →
      applyFunction (fuel + 1) (some (.funO id params body fenv)) args st =
        some (unwrapReturnValue r, st3)) ∧
    resultInt (runProgram 30 newAdderProgram) = some 5 := by
  refine ⟨?_, ?_, ?_, rfl⟩
  · intro fuel params body env st
    rfl
  · intro params fenv args st
    have hget : (st.heap ++ [(⟨[], some fenv⟩ : Frame)]).get? st.heap.length =
        some ⟨[], some fenv⟩ := List.get?_concat_length _ _
    constructor
    · simp [extendFunctionEnv, newEnclosedEnvironment, hget]
    · simp only [extendFunctionEnv, newEnclosedEnvironment, hget]
      exact List.get?_set_eq_of_lt _ (by simp)
  · intro fuel id params body fenv args st r st3 h
    cases hE : extendFunctionEnv params fenv args st with
    | mk env2 st2 =>
      rw [hE] at h
      simp only [applyFunction, hE, h]

/-- Witness for C6: applying the identity function `fn(x) { x }` to the
Integer 7 runs its body in the fresh frame and returns that same
object. -/
theorem claim_C6_closures_witness :
    applyFunction 11 (some (.funO 50 ["x"] (.blockS [.exprStmt (.ident "x")]) 0))
        [some (.intO 20 7)] initialState =
      some (some (.intO 20 7),
        ⟨[⟨[], none⟩, ⟨[("x", some (some (.intO 20 7)))], some 0⟩], 10⟩) :=
  claim_C6_closures.2.2.1 10 50 ["x"] (.blockS [.exprStmt (.ident "x")]) 0
    [some (.intO 20 7)] initialState (some (.intO 20 7))
    ⟨[⟨[], none⟩, ⟨[("x", some (some (.intO 20 7)))], some 0⟩], 10⟩ rfl

/-- `Map.set` then `Map.get` of the same key yields the written value. -/
theorem storeGet_storeSet_self (store : List (String × StoredV)) (k : String)
    (v : StoredV) : storeGet (storeSet store k v) k = some v := by
  induction store with
  | nil => simp [storeSet, storeGet]
  | cons e rest ih =>
    obtain ⟨k', v'⟩ := e
    by_cases hk : k' = k
    · subst hk; simp [storeSet, storeGet]
    · simp [storeSet, storeGet, hk, ih]

/-- `Map.set` leaves other keys untouched. -/
theorem storeGet_storeSet_ne (store : List (String × StoredV)) (k k' : String)
    (v : StoredV) (h : k' ≠ k) :
    storeGet (storeSet store k v) k' = storeGet store k' := by
  induction store with
  | nil => simp [storeSet, storeGet, Ne.symm h]
  | cons e rest ih =>
    obtain ⟨k'', v'⟩ := e
    by_cases hk : k'' = k
    · subst hk
      simp [storeSet, storeGet, Ne.symm h]
    · by_cases hk2 : k'' = k'
      · subst hk2; simp [storeSet, storeGet, hk]
      · simp [storeSet, storeGet, hk, hk2, ih]

/-- A name not among the parameters keeps its store entry across the
parameter-binding loop. -/
theorem bindParameters_preserves (params : List String) (args : List (Option MObj))
    (store : List (String × StoredV)) (name : String) (h : name ∉ params) :
    storeGet (bindParameters params args store) name = storeGet store name := by
  induction params generalizing args store with
  | nil => rfl
  | cons p ps ih =>
    simp only [List.mem_cons, not_or] at h
    simp only [bindParameters]
    rw [ih _ _ h.2, storeGet_storeSet_ne _ _ _ _ h.1]

/-- A parameter with no matching argument ends up bound to the JavaScript
`undefined` (`some none` through `Map.get`). -/
theorem bindParameters_unassigned (params : List String) (args : List (Option MObj))
    (store : List (String × StoredV)) (i : Nat) (h : i < params.length)
    (hnd : params.Nodup) (hlen : args.length ≤ i) :
    storeGet (bindParameters params args store) (params.get ⟨i, h⟩) = some none := by
  induction params generalizing args store i with
  | nil => exact absurd h (by simp)
  | cons p ps ih =>
    rcases List.nodup_cons.mp hnd with ⟨hp, hps⟩
    cases i with
    | zero =>
      have hargs : args = [] := List.length_eq_zero.mp (Nat.le_zero.mp hlen)
      subst hargs
      simp only [bindParameters, List.get]
      rw [bindParameters_preserves _ _ _ _ hp]
      simpa using storeGet_storeSet_self store p none
    | succ i =>
      simp only [bindParameters, List.get]
      exact ih args.tail _ i (by simpa using h) hps (by simp; omega)

/-- Claim C10.  Calling a function with fewer arguments than parameters
raises no arity error: each unsupplied parameter is bound to `undefined`
in the call frame, an entry that `Environment.get` cannot distinguish
from an absent one, so an identifier reference to it falls through to the
function's captured outer environment — resolving an outer binding of the
same name if one exists (`99` below) and producing "identifier not found"
otherwise; extra arguments are silently ignored. -/
theorem claim_C10_arity :
    (∀ (params : List String) (args : List (Option MObj))
       (store : List (String × StoredV)) (i : Nat) (h : i < params.length),
       params.Nodup → args.length ≤ i →
       storeGet (bindParameters params args store) (params.get ⟨i, h⟩) = some none) ∧
    (∀ (fuel : Nat) (heap : List Frame) (ref : Nat) (name : String) (fr : Frame)
       (o : Nat), heap.get? ref = some fr →
       (storeGet fr.store name = some none ∨ storeGet fr.store name = none) →
       fr.outer = some o →
       envGet (fuel + 1) heap ref name = envGet fuel heap o name) ∧
    resultInt (runProgram 30 [.letS "b" (.intLit 99),
      .letS "f" (.funcLit ["a", "b"] (.blockS [.exprStmt (.ident "b")])),
      .exprStmt (.callE (.ident "f") [.intLit 1])]) = some 99 ∧
    resultErrMsg (runProgram 30
      [.letS "f" (.funcLit ["a", "b"] (.blockS [.exprStmt (.ident "b")])),
       .exprStmt (.callE (.ident "f") [.intLit 1])]) =
      some "identifier not found: b" ∧
    resultInt (runProgram 30 [.letS "f" (.funcLit ["a"] (.blockS [.exprStmt (.ident "a")])),
      .exprStmt (.callE (.ident "f") [.intLit 1, .intLit 2])]) = some 1 := by
  refine ⟨bindParameters_unassigned, ?_, rfl, rfl, rfl⟩
  intro fuel heap ref name fr o href hstore houter
  rw [List.get?_eq_getElem?] at href
  rcases hstore with hstore | hstore <;>
    simp [envGet, href, hstore, houter]

/-- Witness for C10: binding `["a", "b"]` to the single argument `1`
leaves `b` bound to `undefined`, and lookup in such a frame falls through
to its outer frame. -/
theorem claim_C10_arity_witness :
    storeGet (bindParameters ["a", "b"] [some (.intO 10 1)] [])
      (["a", "b"].get ⟨1, by decide⟩) = some none ∧
    envGet 2 [⟨[("b", some (some (.intO 11 99)))], none⟩,
        ⟨[("b", none)], some 0⟩] 1 "b" =
      envGet 1 [⟨[("b", some (some (.intO 11 99)))], none⟩,
        ⟨[("b", none)], some 0⟩] 0 "b" :=
  ⟨claim_C10_arity.1 ["a", "b"] [some (.intO 10 1)] [] 1 (by decide) (by decide)
     (by decide),
   claim_C10_arity.2.1 1 _ 1 "b" ⟨[("b", none)], some 0⟩ 0 rfl (Or.inl rfl) rfl⟩

/-! ## Frame preservation

Evaluation only ever writes into the environment it was handed (via
`let`) or into frames it creates itself; every other pre-existing frame
survives unchanged.  `FramesPres ex st st'` says all frames of `st` other
than `ex` are intact in `st'`; `FramesPresAll` exempts none.
-/

/-- All frames of `st` except index `ex` are unchanged in `st'`. -/
def FramesPres (ex : Nat) (st st' : St) : Prop :=
  st.heap.length ≤ st'.heap.length ∧
  ∀ j, j < st.heap.length → j ≠ ex → st'.heap.get? j = st.heap.get? j

/-- All frames of `st` are unchanged in `st'`. -/
def FramesPresAll (st st' : St) : Prop :=
  st.heap.length ≤ st'.heap.length ∧
  ∀ j, j < st.heap.length → st'.heap.get? j = st.heap.get? j

theorem framesPres_of_heapEq (ex : Nat) (st st' : St) (h : st'.heap = st.heap) :
    FramesPres ex st st' := by
  constructor <;> simp [h]

theorem framesPresAll_of_heapEq (st st' : St) (h : st'.heap = st.heap) :
    FramesPresAll st st' := by
  constructor <;> simp [h]

theorem framesPres_trans (ex : Nat) (st1 st2 st3 : St) (h12 : FramesPres ex st1 st2)
    (h23 : FramesPres ex st2 st3) : FramesPres ex st1 st3 := by
  obtain ⟨hl12, hf12⟩ := h12
  obtain ⟨hl23, hf23⟩ := h23
  refine ⟨le_trans hl12 hl23, fun j hj hne => ?_⟩
  rw [hf23 j (lt_of_lt_of_le hj hl12) hne, hf12 j hj hne]

theorem framesPres_of_all (ex : Nat) (st st' : St) (h : FramesPresAll st st') :
    FramesPres ex st st' :=
  ⟨h.1, fun j hj _ => h.2 j hj⟩

theorem framesPresAll_trans (st1 st2 st3 : St) (h12 : FramesPresAll st1 st2)
    (h23 : FramesPresAll st2 st3) : FramesPresAll st1 st3 := by
  obtain ⟨hl12, hf12⟩ := h12
  obtain ⟨hl23, hf23⟩ := h23
  refine ⟨le_trans hl12 hl23, fun j hj => ?_⟩
  rw [hf23 j (lt_of_lt_of_le hj hl12), hf12 j hj]

/-- An `FramesPresAll` step followed by a `FramesPres` step whose
exception is not an original frame preserves all original frames. -/
theorem framesPresAll_extend_trans (st st2 st3 : St) (ex : Nat)
    (h12 : FramesPresAll st st2) (hex : st.heap.length ≤ ex)
    (h23 : FramesPres ex st2 st3) : FramesPresAll st st3 := by
  obtain ⟨hl12, hf12⟩ := h12
  obtain ⟨hl23, hf23⟩ := h23
  refine ⟨le_trans hl12 hl23, fun j hj => ?_⟩
  rw [hf23 j (lt_of_lt_of_le hj hl12) (by omega), hf12 j hj]

/-- `Environment.set` touches only the frame it was aimed at. -/
theorem envSet_pres (st : St) (ref : Nat) (name : String) (v : StoredV) :
    FramesPres ref st (envSet st ref name v) := by
  unfold envSet
  split
  · exact framesPres_of_heapEq _ _ _ rfl
  · constructor
    · simp
    · intro j hj hne
      simp only [List.length_set]
      exact List.get?_set_ne _ _ (Ne.symm hne)

/-- `Environment.set` never changes any *other* frame — in particular no
ancestor frame. -/
theorem envSet_other_frames (st : St) (ref : Nat) (name : String) (v : StoredV)
    (j : Nat) (hj : j ≠ ref) :
    (envSet st ref name v).heap.get? j = st.heap.get? j := by
  unfold envSet
  split
  · rfl
  · exact List.get?_set_ne _ _ (Ne.symm hj)

theorem extendFunctionEnv_fst (params : List String) (fenv : Nat)
    (args : List (Option MObj)) (st : St) :
    (extendFunctionEnv params fenv args st).1 = st.heap.length := by
  unfold extendFunctionEnv newEnclosedEnvironment
  split
  next env st' heq =>
    injection heq with h1 h2
    subst h1
    subst h2
    split <;> rfl

theorem extendFunctionEnv_presAll (params : List String) (fenv : Nat)
    (args : List (Option MObj)) (st : St) :
    FramesPresAll st (extendFunctionEnv params fenv args st).2 := by
  unfold extendFunctionEnv newEnclosedEnvironment
  split
  next env st' heq =>
    injection heq with h1 h2
    subst h1
    subst h2
    split
    · constructor
      · simp
      · intro j hj
        exact List.get?_append hj
    · constructor
      · simp
      · intro j hj
        simp only [List.get?_set_ne _ _ (by omega : st.heap.length ≠ j)]
        exact List.get?_append hj

/-- `evalIdentifier` reads the environment chain but never writes it. -/
theorem evalIdentifier_heap (name : String) (env : Nat) (st : St) :
    ((evalIdentifier name env st).2).heap = st.heap := by
  unfold evalIdentifier
  split
  · rfl
  · split <;> rfl

/-- Frame preservation for the whole evaluator: an evaluation step writes
only into the environment it was handed (`let`) or into frames it creates
itself, so every other pre-existing frame is unchanged; applying a
function preserves *all* pre-existing frames (its writes go to the fresh
call frame). -/
theorem eval_framesPres (fuel : Nat) :
    (∀ n env st r st', evalNode fuel n env st = some (r, st') →
      FramesPres env st st') ∧
    (∀ stmts acc env st r st', evalProgram fuel stmts acc env st = some (r, st') →
      FramesPres env st st') ∧
    (∀ stmts acc env st r st',
      evalBlockStatement fuel stmts acc env st = some (r, st') →
      FramesPres env st st') ∧
    (∀ es acc env st vs st', evalExpressions fuel es acc env st = some (vs, st') →
      FramesPres env st st') ∧
    (∀ c q a env st r st', evalIfExpression fuel c q a env st = some (r, st') →
      FramesPres env st st') ∧
    (∀ f args st r st', applyFunction fuel f args st = some (r, st') →
      FramesPresAll st st') ∧
    (∀ ps acc hid env st r st',
      evalHashLiteralPairs fuel ps acc hid env st = some (r, st') →
      FramesPres env st st') := by
  induction fuel with
  | zero =>
    refine ⟨?_, ?_, ?_, ?_, ?_, ?_, ?_⟩ <;> intros <;>
      simp_all [evalNode, evalProgram, evalBlockStatement, evalExpressions,
        evalIfExpression, applyFunction, evalHashLiteralPairs]
  | succ fuel ih =>
    obtain ⟨ihN, ihP, ihB, ihE, ihI, ihA, ihH⟩ := ih
    refine ⟨?_, ?_, ?_, ?_, ?_, ?_, ?_⟩
    · -- evalNode
      intro n env st r st' h
      cases n with
      | program stmts =>
        have h' : evalProgram fuel stmts none env st = some (r, st') := h
        exact ihP _ _ _ _ _ _ h'
      | exprStmt e =>
        have h' : evalNode fuel e env st = some (r, st') := h
        exact ihN _ _ _ _ _ h'
      | blockS stmts =>
        have h' : evalBlockStatement fuel stmts none env st = some (r, st') := h
        exact ihB _ _ _ _ _ _ h'
      | returnS e =>
        have h' : (match evalNode fuel e env st with
          | none => none
          | some (val, st1) =>
            if isError val then some (val, st1)
            else some (some (.retO st1.next val), bump st1)) = some (r, st') := h
        split at h'
        · exact absurd h' (by simp)
        next val st1 hE =>
          have hp := ihN _ _ _ _ _ hE
          split at h' <;> simp only [Option.some.injEq, Prod.mk.injEq] at h'
          · exact h'.2 ▸ hp
          · exact h'.2 ▸ framesPres_trans _ _ _ _ hp (framesPres_of_heapEq _ _ _ rfl)
      | letS name e =>
        have h' : (match evalNode fuel e env st with
          | none => none
          | some (val, st1) =>
            if isError val then some (val, st1)
            else some (val, envSet st1 env name (some val))) = some (r, st') := h
        split at h'
        · exact absurd h' (by simp)
        next val st1 hE =>
          have hp := ihN _ _ _ _ _ hE
          split at h' <;> simp only [Option.some.injEq, Prod.mk.injEq] at h'
          · exact h'.2 ▸ hp
          · exact h'.2 ▸ framesPres_trans _ _ _ _ hp (envSet_pres st1 env name (some val))
      | intLit v =>
        have h' : (some (some (.intO st.next v), bump st) :
            Option (Option MObj × St)) = some (r, st') := h
        simp only [Option.some.injEq, Prod.mk.injEq] at h'
        exact h'.2 ▸ framesPres_of_heapEq _ _ _ rfl
      | strLit s =>
        have h' : (some (some (.strO st.next s), bump st) :
            Option (Option MObj × St)) = some (r, st') := h
        simp only [Option.some.injEq, Prod.mk.injEq] at h'
        exact h'.2 ▸ framesPres_of_heapEq _ _ _ rfl
      | boolLit b =>
        have h' : (some (some (nativeBoolToBooleanObject b), st) :
            Option (Option MObj × St)) = some (r, st') := h
        simp only [Option.some.injEq, Prod.mk.injEq] at h'
        exact h'.2 ▸ framesPres_of_heapEq _ _ _ rfl
      | prefixE operator e =>
        have h' : (match evalNode fuel e env st with
          | none => none
          | some (right, st1) =>
            if isError right then some (right, st1)
            else
              match evalPrefixExpression operator right st1.next with
              | none => none
              | some (res, σ) => some (some res, { st1 with next := σ })) =
            some (r, st') := h
        split at h'
        · exact absurd h' (by simp)
        next right st1 hE =>
          have hp := ihN _ _ _ _ _ hE
          split at h'
          · simp only [Option.some.injEq, Prod.mk.injEq] at h'
            exact h'.2 ▸ hp
          · split at h'
            · exact absurd h' (by simp)
            next res σ hP =>
              simp only [Option.some.injEq, Prod.mk.injEq] at h'
              exact h'.2 ▸ framesPres_trans _ _ _ _ hp (framesPres_of_heapEq _ _ _ rfl)
      | infixE l operator rn =>
        have h' : (match evalNode fuel l env st with
          | none => none
          | some (left, st1) =>
            if isError left then some (left, st1)
            else
              match evalNode fuel rn env st1 with
              | none => none
              | some (right, st2) =>
                if isError right then some (right, st2)
                else
                  match evalInfixExpression operator left right st2.next with
                  | none => none
                  | some (res, σ) => some (some res, { st2 with next := σ })) =
            some (r, st') := h
        split at h'
        · exact absurd h' (by simp)
        next left st1 hL =>
          have hp1 := ihN _ _ _ _ _ hL
          split at h'
          · simp only [Option.some.injEq, Prod.mk.injEq] at h'
            exact h'.2 ▸ hp1
          · split at h'
            · exact absurd h' (by simp)
            next right st2 hR =>
              have hp2 := framesPres_trans _ _ _ _ hp1 (ihN _ _ _ _ _ hR)
              split at h'
              · simp only [Option.some.injEq, Prod.mk.injEq] at h'
                exact h'.2 ▸ hp2
              · split at h'
                · exact absurd h' (by simp)
                next res σ hX =>
                  simp only [Option.some.injEq, Prod.mk.injEq] at h'
                  exact h'.2 ▸ framesPres_trans _ _ _ _ hp2
                    (framesPres_of_heapEq _ _ _ rfl)
      | ifE c conseq alt =>
        have h' : evalIfExpression fuel c conseq alt env st = some (r, st') := h
        exact ihI _ _ _ _ _ _ _ h'
      | ident name =>
        have h' : (some (evalIdentifier name env st) :
            Option (Option MObj × St)) = some (r, st') := h
        simp only [Option.some.injEq] at h'
        have h2 : (evalIdentifier name env st).2 = st' := congrArg Prod.snd h'
        have hh : st'.heap = st.heap := by
          rw [← h2]
          exact evalIdentifier_heap name env st
        exact framesPres_of_heapEq _ _ _ hh
      | funcLit params body =>
        have h' : (some (some (.funO st.next params body env), bump st) :
            Option (Option MObj × St)) = some (r, st') := h
        simp only [Option.some.injEq, Prod.mk.injEq] at h'
        exact h'.2 ▸ framesPres_of_heapEq _ _ _ rfl
      | callE f argNodes =>
        have h' : (match evalNode fuel f env st with
          | none => none
          | some (func, st1) =>
            if isError func then some (func, st1)
            else
              match evalExpressions fuel argNodes [] env st1 with
              | none => none
              | some (args, st2) =>
                if args.length == 1 && isError (args.getD 0 none) then
                  some (args.getD 0 none, st2)
                else applyFunction fuel func args st2) = some (r, st') := h
        split at h'
        · exact absurd h' (by simp)
        next func st1 hF =>
          have hp1 := ihN _ _ _ _ _ hF
          split at h'
          · simp only [Option.some.injEq, Prod.mk.injEq] at h'
            exact h'.2 ▸ hp1
          · split at h'
            · exact absurd h' (by simp)
            next args st2 hAs =>
              have hp2 := framesPres_trans _ _ _ _ hp1 (ihE _ _ _ _ _ _ hAs)
              split at h'
              · simp only [Option.some.injEq, Prod.mk.injEq] at h'
                exact h'.2 ▸ hp2
              · exact framesPres_trans _ _ _ _ hp2
                  (framesPres_of_all _ _ _ (ihA _ _ _ _ _ h'))
      | arrayLit elemNodes =>
        have h' : (match evalExpressions fuel elemNodes [] env st with
          | none => none
          | some (elements, st1) =>
            if elements.length == 1 && isError (elements.getD 0 none) then
              some (elements.getD 0 none, st1)
            else some (some (.arrO st1.next elements), bump st1)) = some (r, st') := h
        split at h'
        · exact absurd h' (by simp)
        next elements st1 hAs =>
          have hp1 := ihE _ _ _ _ _ _ hAs
          split at h' <;> simp only [Option.some.injEq, Prod.mk.injEq] at h'
          · exact h'.2 ▸ hp1
          · exact h'.2 ▸ framesPres_trans _ _ _ _ hp1 (framesPres_of_heapEq _ _ _ rfl)
      | indexE l i =>
        have h' : (match evalNode fuel l env st with
          | none => none
          | some (left, st1) =>
            if isError left then some (left, st1)
            else
              match evalNode fuel i env st1 with
              | none => none
              | some (index, st2) =>
                if isError index then some (index, st2)
                else
                  match evalIndexExpression left index st2.next with
                  | none => none
                  | some (res, σ) => some (res, { st2 with next := σ })) =
            some (r, st') := h
        split at h'
        · exact absurd h' (by simp)
        next left st1 hL =>
          have hp1 := ihN _ _ _ _ _ hL
          split at h'
          · simp only [Option.some.injEq, Prod.mk.injEq] at h'
            exact h'.2 ▸ hp1
          · split at h'
            · exact absurd h' (by simp)
            next index st2 hR =>
              have hp2 := framesPres_trans _ _ _ _ hp1 (ihN _ _ _ _ _ hR)
              split at h'
              · simp only [Option.some.injEq, Prod.mk.injEq] at h'
                exact h'.2 ▸ hp2
              · split at h'
                · exact absurd h' (by simp)
                next res σ hX =>
                  simp only [Option.some.injEq, Prod.mk.injEq] at h'
                  exact h'.2 ▸ framesPres_trans _ _ _ _ hp2
                    (framesPres_of_heapEq _ _ _ rfl)
      | hashLit pairNodes =>
        have h' : evalHashLiteralPairs fuel pairNodes [] st.next env (bump st) =
            some (r, st') := h
        exact framesPres_trans env st (bump st) st'
          (framesPres_of_heapEq env st (bump st) rfl)
          (ihH pairNodes [] st.next env (bump st) r st' h')
    · -- evalProgram
      intro stmts acc env st r st' h
      cases stmts with
      | nil =>
        have h' : (some (acc, st) : Option (Option MObj × St)) = some (r, st') := h
        simp only [Option.some.injEq, Prod.mk.injEq] at h'
        exact h'.2 ▸ framesPres_of_heapEq _ _ _ rfl
      | cons s rest =>
        have h' : (match evalNode fuel s env st with
          | none => none
          | some (result, st1) =>
            match result with
            | some (.retO _ v) => some (v, st1)
            | some (.errO i m) => some (some (.errO i m), st1)
            | _ => evalProgram fuel rest result env st1) = some (r, st') := h
        split at h'
        · exact absurd h' (by simp)
        next res st1 hE =>
          have hp := ihN _ _ _ _ _ hE
          split at h'
          · simp only [Option.some.injEq, Prod.mk.injEq] at h'
            exact h'.2 ▸ hp
          · simp only [Option.some.injEq, Prod.mk.injEq] at h'
            exact h'.2 ▸ hp
          · exact framesPres_trans _ _ _ _ hp (ihP _ _ _ _ _ _ h')
    · -- evalBlockStatement
      intro stmts acc env st r st' h
      cases stmts with
      | nil =>
        have h' : (some (acc, st) : Option (Option MObj × St)) = some (r, st') := h
        simp only [Option.some.injEq, Prod.mk.injEq] at h'
        exact h'.2 ▸ framesPres_of_heapEq _ _ _ rfl
      | cons s rest =>
        have h' : (match evalNode fuel s env st with
          | none => none
          | some (result, st1) =>
            match result with
            | some (.retO i v) => some (some (.retO i v), st1)
            | some (.errO i m) => some (some (.errO i m), st1)
            | _ => evalBlockStatement fuel rest result env st1) = some (r, st') := h
        split at h'
        · exact absurd h' (by simp)
        next res st1 hE =>
          have hp := ihN _ _ _ _ _ hE
          split at h'
          · simp only [Option.some.injEq, Prod.mk.injEq] at h'
            exact h'.2 ▸ hp
          · simp only [Option.some.injEq, Prod.mk.injEq] at h'
            exact h'.2 ▸ hp
          · exact framesPres_trans _ _ _ _ hp (ihB _ _ _ _ _ _ h')
    · -- evalExpressions
      intro es acc env st vs st' h
      cases es with
      | nil =>
        have h' : (some (acc, st) : Option (List (Option MObj) × St)) =
            some (vs, st') := h
        simp only [Option.some.injEq, Prod.mk.injEq] at h'
        exact h'.2 ▸ framesPres_of_heapEq _ _ _ rfl
      | cons e rest =>
        have h' : (match evalNode fuel e env st with
          | none => none
          | some (v, st1) =>
            if isError v then some ([v], st1)
            else evalExpressions fuel rest (acc ++ [v]) env st1) = some (vs, st') := h
        split at h'
        · exact absurd h' (by simp)
        next v st1 hE =>
          have hp := ihN _ _ _ _ _ hE
          split at h'
          · simp only [Option.some.injEq, Prod.mk.injEq] at h'
            exact h'.2 ▸ hp
          · exact framesPres_trans _ _ _ _ hp (ihE _ _ _ _ _ _ h')
    · -- evalIfExpression
      intro c q a env st r st' h
      simp only [evalIfExpression] at h
      have h' := h
      split at h'
      · exact absurd h' (by simp)
      next condition st1 hE =>
        have hp := ihN _ _ _ _ _ hE
        split at h'
        · simp only [Option.some.injEq, Prod.mk.injEq] at h'
          exact h'.2 ▸ hp
        · split at h'
          · exact framesPres_trans _ _ _ _ hp (ihN _ _ _ _ _ h')
          · split at h'
            · exact framesPres_trans _ _ _ _ hp (ihN _ _ _ _ _ h')
            · simp only [Option.some.injEq, Prod.mk.injEq] at h'
              exact h'.2 ▸ hp
    · -- applyFunction
      intro f args st r st' h
      rcases f with _ | obj
      · exact absurd h (by simp [applyFunction])
      · cases obj with
        | funO i params body fenv =>
          have h' : (match evalNode fuel body (extendFunctionEnv params fenv args st).1
              (extendFunctionEnv params fenv args st).2 with
            | none => none
            | some (evaluated, st3) => some (unwrapReturnValue evaluated, st3)) =
              some (r, st') := h
          split at h'
          · exact absurd h' (by simp)
          next ev st3 hE =>
            simp only [Option.some.injEq, Prod.mk.injEq] at h'
            refine h'.2 ▸ framesPresAll_extend_trans st
              (extendFunctionEnv params fenv args st).2 st3
              (extendFunctionEnv params fenv args st).1
              (extendFunctionEnv_presAll params fenv args st) ?_ (ihN _ _ _ _ _ hE)
            rw [extendFunctionEnv_fst]
        | builtinO i name =>
          have h' : (match applyBuiltin name args st.next with
            | none => none
            | some (res, σ) => some (res, { st with next := σ })) = some (r, st') := h
          split at h'
          · exact absurd h' (by simp)
          next res σ hB =>
            simp only [Option.some.injEq, Prod.mk.injEq] at h'
            exact h'.2 ▸ framesPresAll_of_heapEq _ _ rfl
        | intO i v =>
          have h' : (some (some (.errO st.next ("not a function: " ++
              typeOf (.intO i v))), bump st) : Option (Option MObj × St)) =
              some (r, st') := h
          simp only [Option.some.injEq, Prod.mk.injEq] at h'
          exact h'.2 ▸ framesPresAll_of_heapEq _ _ rfl
        | boolO i b =>
          have h' : (some (some (.errO st.next ("not a function: " ++
              typeOf (.boolO i b))), bump st) : Option (Option MObj × St)) =
              some (r, st') := h
          simp only [Option.some.injEq, Prod.mk.injEq] at h'
          exact h'.2 ▸ framesPresAll_of_heapEq _ _ rfl
        | nullO i =>
          have h' : (some (some (.errO st.next ("not a function: " ++
              typeOf (.nullO i))), bump st) : Option (Option MObj × St)) =
              some (r, st') := h
          simp only [Option.some.injEq, Prod.mk.injEq] at h'
          exact h'.2 ▸ framesPresAll_of_heapEq _ _ rfl
        | strO i s =>
          have h' : (some (some (.errO st.next ("not a function: " ++
              typeOf (.strO i s))), bump st) : Option (Option MObj × St)) =
              some (r, st') := h
          simp only [Option.some.injEq, Prod.mk.injEq] at h'
          exact h'.2 ▸ framesPresAll_of_heapEq _ _ rfl
        | retO i v =>
          have h' : (some (some (.errO st.next ("not a function: " ++
              typeOf (.retO i v))), bump st) : Option (Option MObj × St)) =
              some (r, st') := h
          simp only [Option.some.injEq, Prod.mk.injEq] at h'
          exact h'.2 ▸ framesPresAll_of_heapEq _ _ rfl
        | errO i m =>
          have h' : (some (some (.errO st.next ("not a function: " ++
              typeOf (.errO i m))), bump st) : Option (Option MObj × St)) =
              some (r, st') := h
          simp only [Option.some.injEq, Prod.mk.injEq] at h'
          exact h'.2 ▸ framesPresAll_of_heapEq _ _ rfl
        | arrO i es =>
          have h' : (some (some (.errO st.next ("not a function: " ++
              typeOf (.arrO i es))), bump st) : Option (Option MObj × St)) =
              some (r, st') := h
          simp only [Option.some.injEq, Prod.mk.injEq] at h'
          exact h'.2 ▸ framesPresAll_of_heapEq _ _ rfl
        | hashO i ps =>
          have h' : (some (some (.errO st.next ("not a function: " ++
              typeOf (.hashO i ps))), bump st) : Option (Option MObj × St)) =
              some (r, st') := h
          simp only [Option.some.injEq, Prod.mk.injEq] at h'
          exact h'.2 ▸ framesPresAll_of_heapEq _ _ rfl
    · -- evalHashLiteralPairs
      intro ps acc hid env st r st' h
      cases ps with
      | nil =>
        have h' : (some (some (.hashO hid acc), st) : Option (Option MObj × St)) =
            some (r, st') := h
        simp only [Option.some.injEq, Prod.mk.injEq] at h'
        exact h'.2 ▸ framesPres_of_heapEq _ _ _ rfl
      | cons p rest =>
        obtain ⟨kNode, vNode⟩ := p
        have h' : (match evalNode fuel kNode env st with
          | none => none
          | some (key, st1) =>
            if isError key then some (key, st1)
            else
              match key with
              | none => none
              | some k =>
                if !isHashable k then
                  some (some (.errO st1.next ("unusable as hash key: " ++ typeOf k)),
                    bump st1)
                else
                  match evalNode fuel vNode env st1 with
                  | none => none
                  | some (value, st2) =>
                    if isError value then some (value, st2)
                    else
                      evalHashLiteralPairs fuel rest
                        (mapSet acc (hashKeyString k) (k, value)) hid env st2) =
            some (r, st') := h
        split at h'
        · exact absurd h' (by simp)
        next key st1 hK =>
          have hp1 := ihN _ _ _ _ _ hK
          split at h'
          · simp only [Option.some.injEq, Prod.mk.injEq] at h'
            exact h'.2 ▸ hp1
          · split at h'
            · exact absurd h' (by simp)
            next k =>
              split at h'
              · simp only [Option.some.injEq, Prod.mk.injEq] at h'
                exact h'.2 ▸ framesPres_trans _ _ _ _ hp1
                  (framesPres_of_heapEq _ _ _ rfl)
              · split at h'
                · exact absurd h' (by simp)
                next value st2 hV =>
                  have hp2 := framesPres_trans _ _ _ _ hp1 (ihN _ _ _ _ _ hV)
                  split at h'
                  · simp only [Option.some.injEq, Prod.mk.injEq] at h'
                    exact h'.2 ▸ hp2
                  · exact framesPres_trans _ _ _ _ hp2 (ihH _ _ _ _ _ _ _ h')

/-- Claim C9.  `Environment.set` writes only into the targeted local
frame, never an ancestor; and applying a function preserves every frame
that existed before the call (its writes land in the fresh call frame),
so an inner `let` of a name bound in an enclosing environment shadows
rather than mutates it.  Concretely
`let x = 5; let f = fn() { let x = 99; x }; f() + x` evaluates to `104`
(the call sees `99`), and re-reading `x` after the call still yields
`5`. -/
theorem claim_C9_shadowing :
    (∀ (st : St) (ref : Nat) (name : String) (v : StoredV) (j : Nat), j ≠ ref →
      (envSet st ref name v).heap.get? j = st.heap.get? j) ∧
    (∀ (fuel : Nat) (f : Option MObj) (args : List (Option MObj)) (st : St)
       (r : Option MObj) (st' : St), applyFunction fuel f args st = some (r, st') →
       ∀ j, j < st.heap.length → st'.heap.get? j = st.heap.get? j) ∧
    resultInt (runProgram 30 [.letS "x" (.intLit 5),
      .letS "f" (.funcLit [] (.blockS [.letS "x" (.intLit 99), .exprStmt (.ident "x")])),
      .exprStmt (.infixE (.callE (.ident "f") []) "+" (.ident "x"))]) = some 104 ∧
    resultInt (runProgram 30 [.letS "x" (.intLit 5),
      .letS "f" (.funcLit [] (.blockS [.letS "x" (.intLit 99), .exprStmt (.ident "x")])),
      .exprStmt (.callE (.ident "f") []),
      .exprStmt (.ident "x")]) = some 5 := by
  refine ⟨envSet_other_frames, ?_, rfl, rfl⟩
  intro fuel f args st r st' h j hj
  exact ((eval_framesPres fuel).2.2.2.2.2.1 f args st r st' h).2 j hj

/-- Witness for C9: a concrete `set` into a child frame leaves the root
frame's entry untouched, and a concrete function application leaves the
root frame untouched. -/
theorem claim_C9_shadowing_witness :
    (envSet ⟨[⟨[], none⟩, ⟨[], some 0⟩], 10⟩ 1 "x"
      (some (some (.intO 9 99)))).heap.get? 0 =
      (⟨[⟨[], none⟩, ⟨[], some 0⟩], 10⟩ : St).heap.get? 0 ∧
    (⟨[⟨[], none⟩, ⟨[("x", some (some (.intO 20 7)))], some 0⟩], 10⟩ :
      St).heap.get? 0 = initialState.heap.get? 0 :=
  ⟨claim_C9_shadowing.1 ⟨[⟨[], none⟩, ⟨[], some 0⟩], 10⟩ 1 "x"
     (some (some (.intO 9 99))) 0 (by decide),
   claim_C9_shadowing.2.1 11
     (some (.funO 50 ["x"] (.blockS [.exprStmt (.ident "x")]) 0))
     [some (.intO 20 7)] initialState (some (.intO 20 7))
     ⟨[⟨[], none⟩, ⟨[("x", some (some (.intO 20 7)))], some 0⟩], 10⟩ rfl 0
     (by decide)⟩

/-! ## Tokens (`src/monkey/token/token.ts`) and the Pratt parser
(`src/monkey/parser/parser.ts`)

The parser consumes the lexer only through `nextToken()`; here the token
stream is a list, exhausted positions yielding the `EOF` token repeatedly
(the lexer's behaviour at end of input).  The parser instance state
(current token, peek token, collected errors) is `PState`.  The
precedence enum is `LOWEST = 1 ... INDEX = 8`.
-/

/-- A token: kind tag and literal text (`Token` of `token.ts`; the `Type`
field is spelled `ttype`, `Type` being reserved in Lean). -/
structure Token where
  ttype : String
  literal : String
deriving Repr

namespace Tok

def ILLEGAL : String := "ILLEGAL"

def EOF : String := "EOF"

def IDENT : String := "IDENT"

def INT : String := "INT"

def STRING : String := "STRING"

def ASSIGN : String := "="

def PLUS : String := "+"

def MINUS : String := "-"

def BANG : String := "!"

def ASTERISK : String := "*"

def SLASH : String := "/"

def LT : String := "<"

def GT : String := ">"

def EQ : String := "=="

def NOT_EQ : String := "!="

def COMMA : String := ","

def SEMICOLON : String := ";"

def COLON : String := ":"

def LPAREN : String := "("

def RPAREN : String := ")"

def LBRACE : String := "\x7b"

def RBRACE : String := "\x7d"

def LBRACKET : String := "["

def RBRACKET : String := "]"

def FUNCTION : String := "FUNCTION"

def LET : String := "LET"

def TRUE : String := "TRUE"

def FALSE : String := "FALSE"

def IF : String := "IF"

def ELSE : String := "ELSE"

def RETURN : String := "RETURN"

end Tok

/-- The `precedences` table with `Precedence.LOWEST = 1` as the default
(`peekPrecedence`/`curPrecedence` fall back to `LOWEST`). -/
def precedenceOf (t : String) : Nat :=
  if t == Tok.EQ then 2
  else if t == Tok.NOT_EQ then 2
  else if t == Tok.LT then 3
  else if t == Tok.GT then 3
  else if t == Tok.PLUS then 4
  else if t == Tok.MINUS then 4
  else if t == Tok.SLASH then 5
  else if t == Tok.ASTERISK then 5
  else if t == Tok.LPAREN then 7
  else if t == Tok.LBRACKET then 8
  else 1

/-- The parser state: `curToken`, `peekToken`, the not-yet-delivered rest
of the token stream, and the collected error messages. -/
structure PState where
  curToken : Token
  peekToken : Token
  rest : List Token
  errors : List String
deriving Repr

/-- The token the lexer returns at (and beyond) the end of input. -/
def eofToken : Token := ⟨Tok.EOF, ""⟩

/-- `nextToken()`: shift peek into cur, pull one token from the stream. -/
def advanceToken (s : PState) : PState :=
  ⟨s.peekToken, s.rest.headD eofToken, s.rest.tail, s.errors⟩

/-- The parser constructor: two initial `nextToken()` calls fill
`curToken` and `peekToken`. -/
def newPState (toks : List Token) : PState :=
  advanceToken (advanceToken ⟨⟨"", ""⟩, ⟨"", ""⟩, toks, []⟩)

def curTokenIs (s : PState) (t : String) : Bool :=
  s.curToken.ttype == t

def peekTokenIs (s : PState) (t : String) : Bool :=
  s.peekToken.ttype == t

/-- `peekError`: record a positional mismatch message. -/
def peekError (s : PState) (t : String) : PState :=
  { s with errors := s.errors ++
      ["expected next token to be " ++ t ++ ", got " ++ s.peekToken.ttype ++ " instead"] }

/-- `expectPeek`: advance on a match, record an error otherwise. -/
def expectPeek (s : PState) (t : String) : Bool × PState :=
  if peekTokenIs s t then (true, advanceToken s) else (false, peekError s t)

/-- `noPrefixParseFnError`. -/
def noPrefixParseFnError (s : PState) (t : String) : PState :=
  { s with errors := s.errors ++ ["no prefix parse function for " ++ t ++ " found"] }

def peekPrecedence (s : PState) : Nat :=
  precedenceOf s.peekToken.ttype

def curPrecedence (s : PState) : Nat :=
  precedenceOf s.curToken.ttype

/-- `parseInt(literal, 10)` on the strings the lexer can put in an INT
token: a digit string parses to its decimal value, anything else is `NaN`
(modelled as `none`). -/
def jsParseInt (s : String) : Option Int :=
  match s.data with
  | [] => none
  | l =>
    if l.all (fun c => c.isDigit) then
      some (Int.ofNat (l.foldl (fun n c => n * 10 + (c.toNat - 48)) 0))
    else none

/-- `parseIntegerLiteral`: `parseInt(literal, 10)`, recording
"could not parse ... as integer" on `NaN`. -/
def parseIntegerLiteral (s : PState) : Option Node × PState :=
  match jsParseInt s.curToken.literal with
  | some v => (some (.intLit v), s)
  | none =>
    (none, { s with errors := s.errors ++
        ["could not parse " ++ s.curToken.literal ++ " as integer"] })

/-! The parser proper, as fuel-indexed mutual recursion (the same
convention as the evaluator: `none` alongside an unchanged-or-error state
means the source returned `null`, or the fuel ran out). -/

mutual

/-- `parseStatement`: dispatch on the current token. -/
def parseStatement : Nat → PState → Option Node × PState
  | 0, s => (none, s)
  | fuel + 1, s =>
    if curTokenIs s Tok.LET then parseLetStatement fuel s
    else if curTokenIs s Tok.RETURN then parseReturnStatement fuel s
    else parseExpressionStatement fuel s
  termination_by structural fuel => fuel

/-- `parseLetStatement`: `let <ident> = <expr>;` with optional
semicolon. -/
def parseLetStatement : Nat → PState → Option Node × PState
  | 0, s => (none, s)
  | fuel + 1, s =>
    match expectPeek s Tok.IDENT with
    | (false, s1) => (none, s1)
    | (true, s1) =>
      let name := s1.curToken.literal
      match expectPeek s1 Tok.ASSIGN with
      | (false, s2) => (none, s2)
      | (true, s2) =>
        let s3 := advanceToken s2
        match parseExpression fuel 1 s3 with
        | (none, s4) => (none, s4)
        | (some value, s4) =>
          let s5 := if peekTokenIs s4 Tok.SEMICOLON then advanceToken s4 else s4
          (some (.letS name value), s5)
  termination_by structural fuel => fuel

/-- `parseReturnStatement`. -/
def parseReturnStatement : Nat → PState → Option Node × PState
  | 0, s => (none, s)
  | fuel + 1, s =>
    let s1 := advanceToken s
    match parseExpression fuel 1 s1 with
    | (none, s2) => (none, s2)
    | (some value, s2) =>
      let s3 := if peekTokenIs s2 Tok.SEMICOLON then advanceToken s2 else s2
      (some (.returnS value), s3)
  termination_by structural fuel => fuel

/-- `parseExpressionStatement`. -/
def parseExpressionStatement : Nat → PState → Option Node × PState
  | 0, s => (none, s)
  | fuel + 1, s =>
    match parseExpression fuel 1 s with
    | (none, s1) => (none, s1)
    | (some e, s1) =>
      let s2 := if peekTokenIs s1 Tok.SEMICOLON then advanceToken s1 else s1
      (some (.exprStmt e), s2)
  termination_by structural fuel => fuel

/-- `parseBlockStatement`: statements until `}` or `EOF`. -/
def parseBlockStatement : Nat → PState → Option Node × PState
  | 0, s => (none, s)
  | fuel + 1, s => parseBlockLoop fuel (advanceToken s) []
  termination_by structural fuel => fuel

/-- The loop of `parseBlockStatement`; a failed statement is skipped
(`null` is not pushed). -/
def parseBlockLoop : Nat → PState → List Node → Option Node × PState
  | 0, s, _ => (none, s)
  | fuel + 1, s, acc =>
    if !curTokenIs s Tok.RBRACE && !curTokenIs s Tok.EOF then
      match parseStatement fuel s with
      | (some stmt, s1) => parseBlockLoop fuel (advanceToken s1) (acc ++ [stmt])
      | (none, s1) => parseBlockLoop fuel (advanceToken s1) acc
    else (some (.blockS acc), s)
  termination_by structural fuel => fuel

/-- `parseExpression`: the prefix-handler dispatch (the
`prefixParseFns` registrations) followed by the precedence-climbing
loop. -/
def parseExpression : Nat → Nat → PState → Option Node × PState
  | 0, _, s => (none, s)
  | fuel + 1, precedence, s =>
    let t := s.curToken.ttype
    match
      (if t == Tok.IDENT then ((some (.ident s.curToken.literal) : Option Node), s)
       else if t == Tok.INT then parseIntegerLiteral s
       else if t == Tok.STRING then (some (.strLit s.curToken.literal), s)
       else if t == Tok.BANG then parsePrefixExpression fuel s
       else if t == Tok.MINUS then parsePrefixExpression fuel s
       else if t == Tok.TRUE then (some (.boolLit true), s)
       else if t == Tok.FALSE then (some (.boolLit false), s)
       else if t == Tok.LPAREN then parseGroupedExpression fuel s
       else if t == Tok.IF then parseIfExpression fuel s
       else if t == Tok.FUNCTION then parseFunctionLiteral fuel s
       else if t == Tok.LBRACKET then parseArrayLiteral fuel s
       else if t == Tok.LBRACE then parseHashLiteral fuel s
       else (none, noPrefixParseFnError s t)) with
    | (none, s1) => (none, s1)
    | (some leftExp, s1) => parseExpressionLoop fuel precedence leftExp s1
  termination_by structural fuel => fuel

/-- The `while` loop of `parseExpression`: as long as the next token is
not `;` and its precedence strictly exceeds the floor, consume the infix
handler (`infixParseFns`) and fold the result into the left operand. -/
def parseExpressionLoop : Nat → Nat → Node → PState → Option Node × PState
  | 0, _, _, s => (none, s)
  | fuel + 1, precedence, leftExp, s =>
    if !peekTokenIs s Tok.SEMICOLON && decide (precedence < peekPrecedence s) then
      let t := s.peekToken.ttype
      if t == Tok.PLUS || t == Tok.MINUS || t == Tok.SLASH || t == Tok.ASTERISK ||
          t == Tok.EQ || t == Tok.NOT_EQ || t == Tok.LT || t == Tok.GT then
        match parseInfixExpression fuel leftExp (advanceToken s) with
        | (none, s2) => (none, s2)
        | (some l2, s2) => parseExpressionLoop fuel precedence l2 s2
      else if t == Tok.LPAREN then
        match parseCallExpression fuel leftExp (advanceToken s) with
        | (none, s2) => (none, s2)
        | (some l2, s2) => parseExpressionLoop fuel precedence l2 s2
      else if t == Tok.LBRACKET then
        match parseIndexExpression fuel leftExp (advanceToken s) with
        | (none, s2) => (none, s2)
        | (some l2, s2) => parseExpressionLoop fuel precedence l2 s2
      else (some leftExp, s)
    else (some leftExp, s)
  termination_by structural fuel => fuel

/-- `parsePrefixExpression`: operand parsed at `PREFIX` precedence
(6). -/
def parsePrefixExpression : Nat → PState → Option Node × PState
  | 0, s => (none, s)
  | fuel + 1, s =>
    let operator := s.curToken.literal
    match parseExpression fuel 6 (advanceToken s) with
    | (none, s2) => (none, s2)
    | (some right, s2) => (some (.prefixE operator right), s2)
  termination_by structural fuel => fuel

/-- `parseInfixExpression`: record the operator's precedence, advance,
parse the right operand at that precedence (left associativity). -/
def parseInfixExpression : Nat → Node → PState → Option Node × PState
  | 0, _, s => (none, s)
  | fuel + 1, leftExp, s =>
    let operator := s.curToken.literal
    let precedence := curPrecedence s
    match parseExpression fuel precedence (advanceToken s) with
    | (none, s2) => (none, s2)
    | (some right, s2) => (some (.infixE leftExp operator right), s2)
  termination_by structural fuel => fuel

/-- `parseGroupedExpression`: `( <expr> )`; note the inner result is
returned as-is (even `null`) once the `)` matches. -/
def parseGroupedExpression : Nat → PState → Option Node × PState
  | 0, s => (none, s)
  | fuel + 1, s =>
    match parseExpression fuel 1 (advanceToken s) with
    | (exp, s2) =>
      match expectPeek s2 Tok.RPAREN with
      | (false, s3) => (none, s3)
      | (true, s3) => (exp, s3)
  termination_by structural fuel => fuel

/-- `parseIfExpression`. -/
def parseIfExpression : Nat → PState → Option Node × PState
  | 0, s => (none, s)
  | fuel + 1, s =>
    match expectPeek s Tok.LPAREN with
    | (false, s1) => (none, s1)
    | (true, s1) =>
      match parseExpression fuel 1 (advanceToken s1) with
      | (none, s2) => (none, s2)
      | (some condition, s2) =>
        match expectPeek s2 Tok.RPAREN with
        | (false, s3) => (none, s3)
        | (true, s3) =>
          match expectPeek s3 Tok.LBRACE with
          | (false, s4) => (none, s4)
          | (true, s4) =>
            match parseBlockStatement fuel s4 with
            | (none, s5) => (none, s5)
            | (some consequence, s5) =>
              if peekTokenIs s5 Tok.ELSE then
                match expectPeek (advanceToken s5) Tok.LBRACE with
                | (false, s6) => (none, s6)
                | (true, s6) =>
                  match parseBlockStatement fuel s6 with
                  | (none, s7) => (none, s7)
                  | (some alternative, s7) =>
                    (some (.ifE condition consequence (some alternative)), s7)
              else (some (.ifE condition consequence none), s5)
  termination_by structural fuel => fuel

/-- `parseFunctionLiteral`. -/
def parseFunctionLiteral : Nat → PState → Option Node × PState
  | 0, s => (none, s)
  | fuel + 1, s =>
    match expectPeek s Tok.LPAREN with
    | (false, s1) => (none, s1)
    | (true, s1) =>
      match parseFunctionParameters fuel s1 with
      | (none, s2) => (none, s2)
      | (some params, s2) =>
        match expectPeek s2 Tok.LBRACE with
        | (false, s3) => (none, s3)
        | (true, s3) =>
          match parseBlockStatement fuel s3 with
          | (none, s4) => (none, s4)
          | (some body, s4) => (some (.funcLit params body), s4)
  termination_by structural fuel => fuel

/-- `parseFunctionParameters`: comma-separated identifiers up to `)`. -/
def parseFunctionParameters : Nat → PState → Option (List String) × PState
  | 0, s => (none, s)
  | fuel + 1, s =>
    if peekTokenIs s Tok.RPAREN then (some [], advanceToken s)
    else
      let s1 := advanceToken s
      parseFunctionParametersLoop fuel s1 [s1.curToken.literal]
  termination_by structural fuel => fuel

/-- The comma loop of `parseFunctionParameters`, ending with the
mandatory `)`. -/
def parseFunctionParametersLoop : Nat → PState → List String →
    Option (List String) × PState
  | 0, s, _ => (none, s)
  | fuel + 1, s, acc =>
    if peekTokenIs s Tok.COMMA then
      let s1 := advanceToken (advanceToken s)
      parseFunctionParametersLoop fuel s1 (acc ++ [s1.curToken.literal])
    else
      match expectPeek s Tok.RPAREN with
      | (false, s1) => (none, s1)
      | (true, s1) => (some acc, s1)
  termination_by structural fuel => fuel

/-- `parseArrayLiteral`. -/
def parseArrayLiteral : Nat → PState → Option Node × PState
  | 0, s => (none, s)
  | fuel + 1, s =>
    match parseExpressionList fuel Tok.RBRACKET s with
    | (none, s1) => (none, s1)
    | (some elements, s1) => (some (.arrayLit elements), s1)
  termination_by structural fuel => fuel

/-- `parseExpressionList`: comma-separated expressions up to the given
terminator (shared by call arguments and array elements). -/
def parseExpressionList : Nat → String → PState → Option (List Node) × PState
  | 0, _, s => (none, s)
  | fuel + 1, endT, s =>
    if peekTokenIs s endT then (some [], advanceToken s)
    else
      match parseExpression fuel 1 (advanceToken s) with
      | (none, s2) => (none, s2)
      | (some first, s2) => parseExpressionListLoop fuel endT s2 [first]
  termination_by structural fuel => fuel

/-- The comma loop of `parseExpressionList`, ending with the mandatory
terminator. -/
def parseExpressionListLoop : Nat → String → PState → List Node →
    Option (List Node) × PState
  | 0, _, s, _ => (none, s)
  | fuel + 1, endT, s, acc =>
    if peekTokenIs s Tok.COMMA then
      match parseExpression fuel 1 (advanceToken (advanceToken s)) with
      | (none, s2) => (none, s2)
      | (some e, s2) => parseExpressionListLoop fuel endT s2 (acc ++ [e])
    else
      match expectPeek s endT with
      | (false, s1) => (none, s1)
      | (true, s1) => (some acc, s1)
  termination_by structural fuel => fuel

/-- `parseHashLiteral`: `<expr> : <expr>` pairs separated by commas up to
`}`. -/
def parseHashLiteral : Nat → PState → Option Node × PState
  | 0, s => (none, s)
  | fuel + 1, s => parseHashLoop fuel s []
  termination_by structural fuel => fuel

/-- The pair loop of `parseHashLiteral`. -/
def parseHashLoop : Nat → PState → List (Node × Node) → Option Node × PState
  | 0, s, _ => (none, s)
  | fuel + 1, s, acc =>
    if !peekTokenIs s Tok.RBRACE then
      match parseExpression fuel 1 (advanceToken s) with
      | (none, s2) => (none, s2)
      | (some key, s2) =>
        match expectPeek s2 Tok.COLON with
        | (false, s3) => (none, s3)
        | (true, s3) =>
          match parseExpression fuel 1 (advanceToken s3) with
          | (none, s4) => (none, s4)
          | (some value, s4) =>
            if !peekTokenIs s4 Tok.RBRACE then
              match expectPeek s4 Tok.COMMA with
              | (false, s5) => (none, s5)
              | (true, s5) => parseHashLoop fuel s5 (acc ++ [(key, value)])
            else parseHashLoop fuel s4 (acc ++ [(key, value)])
    else
      match expectPeek s Tok.RBRACE with
      | (false, s1) => (none, s1)
      | (true, s1) => (some (.hashLit acc), s1)
  termination_by structural fuel => fuel

/-- `parseCallExpression`. -/
def parseCallExpression : Nat → Node → PState → Option Node × PState
  | 0, _, s => (none, s)
  | fuel + 1, func, s =>
    match parseExpressionList fuel Tok.RPAREN s with
    | (none, s1) => (none, s1)
    | (some args, s1) => (some (.callE func args), s1)
  termination_by structural fuel => fuel

/-- `parseIndexExpression`. -/
def parseIndexExpression : Nat → Node → PState → Option Node × PState
  | 0, _, s => (none, s)
  | fuel + 1, leftExp, s =>
    match parseExpression fuel 1 (advanceToken s) with
    | (none, s2) => (none, s2)
    | (some index, s2) =>
      match expectPeek s2 Tok.RBRACKET with
      | (false, s3) => (none, s3)
      | (true, s3) => (some (.indexE leftExp index), s3)
  termination_by structural fuel => fuel

/-- The statement loop of `parseProgram` (failed statements are dropped,
parsing continues). -/
def parseProgramLoop : Nat → PState → List Node → Option (List Node) × PState
  | 0, s, _ => (none, s)
  | fuel + 1, s, acc =>
    if !curTokenIs s Tok.EOF then
      match parseStatement fuel s with
      | (some stmt, s1) => parseProgramLoop fuel (advanceToken s1) (acc ++ [stmt])
      | (none, s1) => parseProgramLoop fuel (advanceToken s1) acc
    else (some acc, s)
  termination_by structural fuel => fuel

end

/-- `parseProgram`: run the statement loop on a fresh parser state. -/
def parseProgram (fuel : Nat) (toks : List Token) : Option Node × PState :=
  match parseProgramLoop fuel (newPState toks) [] with
  | (some stmts, s) => (some (.program stmts), s)
  | (none, s) => (none, s)

/-- Just the parsed AST of a token stream. -/
def parsedProgram (fuel : Nat) (toks : List Token) : Option Node :=
  (parseProgram fuel toks).1

/-- Shorthand for an identifier token. -/
def idTok (name : String) : Token := ⟨Tok.IDENT, name⟩

/-- Shorthand for an operator/punctuation token (kind = literal = the
symbol, as the lexer produces them). -/
def opTok (symbol : String) : Token := ⟨symbol, symbol⟩

/-- Shorthand for an integer token. -/
def intTok (lit : String) : Token := ⟨Tok.INT, lit⟩

/-! ## The declarative precedence reading of an operator chain

For the parser claim, the spec side: an expression
`a0 op1 a1 op2 a2 ... opn an` is precedence-correct when it is grouped by
repeatedly splitting at the *last* operator of *minimal* precedence — the
loosest operator binds outermost, and among equals the rightmost splits,
which is exactly left associativity.  This is defined from the spec's
precedence table alone, independently of the Pratt algorithm.
-/

/-- An operator token kind the claim ranges over. -/
def isBinOp (o : String) : Bool :=
  o == "+" || o == "-" || o == "*" || o == "/" || o == "<" || o == ">" ||
    o == "==" || o == "!="

/-- Split an operator/atom list at the last operator of minimal
precedence: `some (l, m, r)` with the list equal to `l ++ m :: r`. -/
def lastMinSplit : List (String × String) →
    Option (List (String × String) × (String × String) × List (String × String))
  | [] => none
  | x :: xs =>
    match lastMinSplit xs with
    | none => some ([], x, [])
    | some (l, m, r) =>
      if precedenceOf x.1 < precedenceOf m.1 then some ([], x, xs)
      else some (x :: l, m, r)

/-- The precedence-correct tree over a left-most expression and a chain
of (operator, atom) continuations (`fuel` only bounds the recursion; the
chain length suffices). -/
def specParse (fuel : Nat) (left : Node) (ops : List (String × String)) : Node :=
  match fuel with
  | 0 => left
  | fuel + 1 =>
    match lastMinSplit ops with
    | none => left
    | some (l, m, r) =>
      .infixE (specParse fuel left l) m.1 (specParse fuel (.ident m.2) r)

/-- The precedence-correct reading of a chain. -/
def precForm (left : Node) (ops : List (String × String)) : Node :=
  specParse ops.length left ops

/-- The token stream of a chain: atom, then operator/atom pairs. -/
def opsToks (ops : List (String × String)) : List Token :=
  (ops.map (fun p => [opTok p.1, idTok p.2])).join

def chainToks (a : String) (ops : List (String × String)) : List Token :=
  idTok a :: opsToks ops

/-- The identifier of the last atom of `a` followed by `ops`. -/
def endAtom (a : String) (ops : List (String × String)) : String :=
  match ops with
  | [] => a
  | x :: xs => endAtom x.2 xs

/-- The parser state positioned on an atom with `ops` still to come. -/
def chainState (a : String) (ops : List (String × String)) (errs : List String) :
    PState :=
  ⟨idTok a, (opsToks ops).headD eofToken, (opsToks ops).tail, errs⟩




theorem lastMinSplit_none (ops : List (String × String))
    (h : lastMinSplit ops = none) : ops = [] := by
  cases ops with
  | nil => rfl
  | cons x xs =>
    exfalso
    simp only [lastMinSplit] at h
    split at h
    · simp at h
    · split at h <;> simp at h

theorem lastMinSplit_parts (ops : List (String × String)) :
    ∀ l m r, lastMinSplit ops = some (l, m, r) → ops = l ++ m :: r := by
  induction ops with
  | nil => intro l m r h; simp [lastMinSplit] at h
  | cons x xs ih =>
    intro l m r h
    simp only [lastMinSplit] at h
    split at h
    next heq =>
      have hnil := lastMinSplit_none xs heq
      subst hnil
      simp only [Option.some.injEq, Prod.mk.injEq] at h
      obtain ⟨h1, h2, h3⟩ := h
      subst h1; subst h2; subst h3
      rfl
    next l' m' r' heq =>
      split at h <;> simp only [Option.some.injEq, Prod.mk.injEq] at h <;>
        obtain ⟨h1, h2, h3⟩ := h <;> subst h1 <;> subst h2 <;> subst h3
      · rfl
      · simpa using ih _ _ _ heq

theorem lastMinSplit_min (ops : List (String × String)) :
    ∀ l m r, lastMinSplit ops = some (l, m, r) →
    ∀ z ∈ ops, precedenceOf m.1 ≤ precedenceOf z.1 := by
  induction ops with
  | nil => intro l m r h; simp [lastMinSplit] at h
  | cons x xs ih =>
    intro l m r h
    simp only [lastMinSplit] at h
    split at h
    next heq =>
      have hnil := lastMinSplit_none xs heq
      subst hnil
      simp only [Option.some.injEq, Prod.mk.injEq] at h
      obtain ⟨h1, h2, h3⟩ := h
      subst h2
      intro z hz
      simp only [List.mem_singleton] at hz
      subst hz
      exact le_refl _
    next l' m' r' heq =>
      split at h <;> simp only [Option.some.injEq, Prod.mk.injEq] at h <;>
        obtain ⟨h1, h2, h3⟩ := h <;> subst h2
      · next hlt =>
        intro z hz
        rcases List.mem_cons.mp hz with hz | hz
        · subst hz; exact le_refl _
        · exact le_trans (le_of_lt hlt) (ih _ _ _ heq z hz)
      · next hge =>
        intro z hz
        rcases List.mem_cons.mp hz with hz | hz
        · subst hz; omega
        · exact ih _ _ _ heq z hz

theorem lastMinSplit_head (x : String × String) (xs : List (String × String))
    (h : ∀ z ∈ xs, precedenceOf x.1 < precedenceOf z.1) :
    lastMinSplit (x :: xs) = some ([], x, xs) := by
  simp only [lastMinSplit]
  split
  next heq =>
    have hnil := lastMinSplit_none xs heq
    subst hnil
    rfl
  next l m r heq =>
    have hm : m ∈ xs := by
      rw [lastMinSplit_parts xs l m r heq]
      simp
    rw [if_pos (h m hm)]

theorem lastMinSplit_append (zs : List (String × String))
    (l2 : List (String × String)) (m2 : String × String)
    (r2 : List (String × String)) (hz : lastMinSplit zs = some (l2, m2, r2)) :
    ∀ xs : List (String × String),
    (∀ x ∈ xs, precedenceOf m2.1 ≤ precedenceOf x.1) →
    lastMinSplit (xs ++ zs) = some (xs ++ l2, m2, r2) := by
  intro xs
  induction xs with
  | nil => intro _; simpa using hz
  | cons x xs' ih =>
    intro hxs
    have ih' := ih (fun y hy => hxs y (List.mem_cons_of_mem x hy))
    rw [List.cons_append]
    simp only [lastMinSplit]
    split
    next heq =>
      exact absurd (ih'.symm.trans heq) (by simp)
    next l m r heq =>
      have hcomb : (some (xs' ++ l2, m2, r2) :
          Option (List (String × String) × (String × String) ×
            List (String × String))) = some (l, m, r) := ih'.symm.trans heq
      simp only [Option.some.injEq, Prod.mk.injEq] at hcomb
      obtain ⟨h1, h2, h3⟩ := hcomb
      subst h1; subst h2; subst h3
      rw [if_neg (by
        have := hxs x (List.mem_cons_self x xs')
        omega)]
      simp
theorem specParse_nil (fuel : Nat) (left : Node) :
    specParse fuel left [] = left := by
  cases fuel <;> simp [specParse, lastMinSplit]

theorem specParse_fuel_eq (n : Nat) : ∀ ops : List (String × String), ops.length ≤ n →
    ∀ f1 f2, ops.length ≤ f1 → ops.length ≤ f2 → ∀ left,
    specParse f1 left ops = specParse f2 left ops := by
  induction n with
  | zero =>
    intro ops hn f1 f2 h1 h2 left
    have hnil : ops = [] := List.length_eq_zero.mp (Nat.le_zero.mp hn)
    subst hnil
    rw [specParse_nil, specParse_nil]
  | succ n ih =>
    intro ops hn f1 f2 h1 h2 left
    rcases hops : lastMinSplit ops with _ | ⟨l, m, r⟩
    · have hnil := lastMinSplit_none ops hops
      subst hnil
      rw [specParse_nil, specParse_nil]
    · have hparts := lastMinSplit_parts ops l m r hops
      have hlen : ops.length = l.length + 1 + r.length := by
        rw [hparts]
        simp [List.length_append]
        omega
      cases f1 with
      | zero => omega
      | succ f1 =>
        cases f2 with
        | zero => omega
        | succ f2 =>
          simp only [specParse, hops]
          rw [ih l (by omega) f1 f2 (by omega) (by omega) left,
            ih r (by omega) f1 f2 (by omega) (by omega) (.ident m.2)]

theorem specParse_eq_precForm (ops : List (String × String)) (fuel : Nat)
    (h : ops.length ≤ fuel) (left : Node) :
    specParse fuel left ops = precForm left ops :=
  specParse_fuel_eq ops.length ops (le_refl _) fuel ops.length h (le_refl _) left

theorem precForm_split (ops l : List (String × String)) (m : String × String)
    (r : List (String × String)) (left : Node)
    (h : lastMinSplit ops = some (l, m, r)) :
    precForm left ops = .infixE (precForm left l) m.1 (precForm (.ident m.2) r) := by
  have hparts := lastMinSplit_parts ops l m r h
  have hlen : ops.length = (l.length + r.length) + 1 := by
    rw [hparts]
    simp [List.length_append]
    omega
  show specParse ops.length left ops = _
  rw [hlen]
  simp only [specParse, h]
  rw [specParse_eq_precForm l (l.length + r.length) (by omega) left,
    specParse_eq_precForm r (l.length + r.length) (by omega) (.ident m.2)]

theorem precForm_merge (n : Nat) : ∀ pre2 : List (String × String), pre2.length ≤ n →
    ∀ (o a : String) (pre1 : List (String × String)) (left : Node),
    (∀ x ∈ pre1, precedenceOf o < precedenceOf x.1) →
    (∀ y ∈ pre2.head?, precedenceOf y.1 ≤ precedenceOf o) →
    precForm left ((o, a) :: (pre1 ++ pre2)) =
      precForm (.infixE left o (precForm (.ident a) pre1)) pre2 := by
  induction n with
  | zero =>
    intro pre2 hn o a pre1 left hpre1 hhead
    have hnil : pre2 = [] := List.length_eq_zero.mp (Nat.le_zero.mp hn)
    subst hnil
    rw [List.append_nil]
    show _ = specParse 0 _ []
    rw [specParse_nil]
    rw [precForm_split ((o, a) :: pre1) [] (o, a) pre1 left
      (lastMinSplit_head (o, a) pre1 hpre1)]
    show Node.infixE (specParse 0 left []) o _ = _
    rw [specParse_nil]
  | succ n ih =>
    intro pre2 hn o a pre1 left hpre1 hhead
    cases pre2 with
    | nil =>
      rw [List.append_nil]
      show _ = specParse 0 _ []
      rw [specParse_nil]
      rw [precForm_split ((o, a) :: pre1) [] (o, a) pre1 left
        (lastMinSplit_head (o, a) pre1 hpre1)]
      show Node.infixE (specParse 0 left []) o _ = _
      rw [specParse_nil]
    | cons y ys =>
      have hy : precedenceOf y.1 ≤ precedenceOf o := hhead y rfl
      rcases hz : lastMinSplit (y :: ys) with _ | ⟨l2, m2, r2⟩
      · exact absurd (lastMinSplit_none _ hz) (by simp)
      · have hm2min := lastMinSplit_min (y :: ys) l2 m2 r2 hz
        have hm2o : precedenceOf m2.1 ≤ precedenceOf o :=
          le_trans (hm2min y (List.mem_cons_self y ys)) hy
        have hxsall : ∀ x ∈ (o, a) :: pre1, precedenceOf m2.1 ≤ precedenceOf x.1 := by
          intro x hx
          rcases List.mem_cons.mp hx with hx | hx
          · subst hx; exact hm2o
          · exact le_trans hm2o (le_of_lt (hpre1 x hx))
        have hbig : lastMinSplit (((o, a) :: pre1) ++ (y :: ys)) =
            some (((o, a) :: pre1) ++ l2, m2, r2) :=
          lastMinSplit_append (y :: ys) l2 m2 r2 hz ((o, a) :: pre1) hxsall
        have hparts2 := lastMinSplit_parts (y :: ys) l2 m2 r2 hz
        have hbig' : lastMinSplit ((o, a) :: (pre1 ++ (y :: ys))) =
            some ((o, a) :: (pre1 ++ l2), m2, r2) := by
          rw [← List.cons_append, ← List.cons_append]
          exact hbig
        rw [precForm_split _ _ _ _ left hbig']
        rw [precForm_split (y :: ys) l2 m2 r2 _ hz]
        have hheadl2 : ∀ y' ∈ l2.head?, precedenceOf y'.1 ≤ precedenceOf o := by
          cases l2 with
          | nil => intro y' hy'; simp at hy'
          | cons u us =>
            intro y' hy'
            have huy : y' = u := by
              simp only [List.head?, Option.mem_def, Option.some.injEq] at hy'
              exact hy'.symm
            have hyu : y = u := by
              have hp := hparts2
              simp only [List.cons_append, List.cons.injEq] at hp
              exact hp.1
            rw [huy, ← hyu]
            exact hy
        have hl2len : l2.length ≤ n := by
          have hlp := congrArg List.length hparts2
          simp only [List.length_cons, List.length_append] at hlp hn
          omega
        rw [ih l2 hl2len o a pre1 left hpre1 hheadl2]
theorem opsToks_cons (o b : String) (rest : List (String × String)) :
    opsToks ((o, b) :: rest) = opTok o :: idTok b :: opsToks rest := by
  simp [opsToks]

theorem chainState_cons (a o b : String) (rest : List (String × String))
    (errs : List String) :
    chainState a ((o, b) :: rest) errs =
      ⟨idTok a, opTok o, idTok b :: opsToks rest, errs⟩ := by
  simp [chainState, opsToks_cons]

theorem chainState_nil (a : String) (errs : List String) :
    chainState a [] errs = ⟨idTok a, eofToken, [], errs⟩ := rfl

theorem newPState_chain (a : String) (ops : List (String × String)) :
    newPState (chainToks a ops) = chainState a ops [] := rfl

theorem binOp_facts (o : String) (h : isBinOp o = true) :
    (o == ";") = false ∧ 2 ≤ precedenceOf o ∧
    (o == Tok.PLUS || o == Tok.MINUS || o == Tok.SLASH || o == Tok.ASTERISK ||
      o == Tok.EQ || o == Tok.NOT_EQ || o == Tok.LT || o == Tok.GT) = true := by
  simp only [isBinOp, Bool.or_eq_true, beq_iff_eq] at h
  rcases h with ((((((h | h) | h) | h) | h) | h) | h) | h <;> subst h <;>
    exact ⟨rfl, by decide, rfl⟩

theorem parseExpression_atom (k minP : Nat) (b : String)
    (rest : List (String × String)) (errs : List String) :
    parseExpression (k + 1) minP (chainState b rest errs) =
      parseExpressionLoop k minP (.ident b) (chainState b rest errs) := rfl

theorem parseInfixExpression_step (k : Nat) (o b : String) (left : Node)
    (rest : List (String × String)) (errs : List String) :
    parseInfixExpression (k + 1) left ⟨opTok o, idTok b, opsToks rest, errs⟩ =
      (match parseExpression k (precedenceOf o) (chainState b rest errs) with
       | (none, s2) => (none, s2)
       | (some right, s2) => (some (.infixE left o right), s2)) := rfl

theorem parseExpressionLoop_nil (k minP : Nat) (left : Node) (a : String)
    (errs : List String) (hminP : 1 ≤ minP) :
    parseExpressionLoop (k + 1) minP left (chainState a [] errs) =
      (some left, chainState a [] errs) := by
  have hc : (!peekTokenIs (chainState a [] errs) Tok.SEMICOLON &&
      decide (minP < peekPrecedence (chainState a [] errs))) = false := by
    simp only [chainState_nil, peekTokenIs, peekPrecedence]
    have : precedenceOf eofToken.ttype = 1 := by decide
    simp [this]
    omega
  simp only [parseExpressionLoop, hc, Bool.false_eq_true, if_false]

theorem parseExpressionLoop_stop (k minP : Nat) (left : Node) (a o b : String)
    (rest : List (String × String)) (errs : List String)
    (hbo : isBinOp o = true) (hno : ¬ (minP < precedenceOf o)) :
    parseExpressionLoop (k + 1) minP left (chainState a ((o, b) :: rest) errs) =
      (some left, chainState a ((o, b) :: rest) errs) := by
  obtain ⟨hsemi, _, _⟩ := binOp_facts o hbo
  have hc : (!peekTokenIs (chainState a ((o, b) :: rest) errs) Tok.SEMICOLON &&
      decide (minP < peekPrecedence (chainState a ((o, b) :: rest) errs))) = false := by
    simp only [chainState_cons, peekTokenIs, peekPrecedence, opTok]
    simp [hno]
  simp only [parseExpressionLoop, hc, Bool.false_eq_true, if_false]

theorem parseExpressionLoop_go (k minP : Nat) (left : Node) (a o b : String)
    (rest : List (String × String)) (errs : List String)
    (hbo : isBinOp o = true) (hlt : minP < precedenceOf o) :
    parseExpressionLoop (k + 1) minP left (chainState a ((o, b) :: rest) errs) =
      (match parseInfixExpression k left ⟨opTok o, idTok b, opsToks rest, errs⟩ with
       | (none, s2) => (none, s2)
       | (some l2, s2) => parseExpressionLoop k minP l2 s2) := by
  obtain ⟨hsemi, hp2, hdisp⟩ := binOp_facts o hbo
  have hc : (!peekTokenIs (⟨idTok a, opTok o, idTok b :: opsToks rest, errs⟩ : PState) Tok.SEMICOLON &&
      decide (minP < peekPrecedence (⟨idTok a, opTok o, idTok b :: opsToks rest, errs⟩ : PState))) = true := by
    simp only [peekTokenIs, peekPrecedence, opTok]
    simp [Tok.SEMICOLON, hsemi, hlt]
  rw [chainState_cons]
  simp only [parseExpressionLoop, hc, if_true]
  simp only [opTok, idTok, advanceToken]
  rw [if_pos hdisp]
  rfl


theorem endAtom_append (l1 : List (String × String)) : ∀ (a : String)
    (l2 : List (String × String)),
    endAtom a (l1 ++ l2) = endAtom (endAtom a l1) l2 := by
  induction l1 with
  | nil => intro a l2; rfl
  | cons x xs ih => intro a l2; simpa [endAtom] using ih x.2 l2

theorem takeWhile_compose {α : Type} (p q : α → Bool)
    (h : ∀ x, q x = true → p x = true) (l : List α) :
    l.takeWhile p = l.takeWhile q ++ (l.dropWhile q).takeWhile p := by
  induction l with
  | nil => rfl
  | cons x xs ih =>
    by_cases hq : q x = true
    · have hp : p x = true := h x hq
      simp [List.takeWhile_cons, List.dropWhile_cons, hq, hp, ih]
    · simp [List.takeWhile_cons, List.dropWhile_cons, hq]

theorem dropWhile_compose {α : Type} (p q : α → Bool)
    (h : ∀ x, q x = true → p x = true) (l : List α) :
    l.dropWhile p = (l.dropWhile q).dropWhile p := by
  induction l with
  | nil => rfl
  | cons x xs ih =>
    by_cases hq : q x = true
    · have hp : p x = true := h x hq
      simp [List.dropWhile_cons, hq, hp, ih]
    · simp [List.dropWhile_cons, hq]

theorem head_dropWhile_false {α : Type} (q : α → Bool) (l : List α) (y : α)
    (h : (l.dropWhile q).head? = some y) : q y = false := by
  induction l with
  | nil => simp [List.dropWhile] at h
  | cons x xs ih =>
    by_cases hq : q x = true
    · rw [List.dropWhile_cons_of_pos hq] at h
      exact ih h
    · rw [List.dropWhile_cons_of_neg hq] at h
      simp only [List.head?, Option.some.injEq] at h
      rw [← h]
      exact Bool.eq_false_iff.mpr hq

theorem mem_of_mem_dropWhile {α : Type} (q : α → Bool) (l : List α) (x : α)
    (h : x ∈ l.dropWhile q) : x ∈ l := by
  induction l with
  | nil => simp [List.dropWhile] at h
  | cons y ys ih =>
    by_cases hq : q y = true
    · rw [List.dropWhile_cons_of_pos hq] at h
      exact List.mem_cons_of_mem y (ih h)
    · rw [List.dropWhile_cons_of_neg hq] at h
      exact h

theorem mem_of_mem_takeWhile {α : Type} (q : α → Bool) (l : List α) (x : α)
    (h : x ∈ l.takeWhile q) : x ∈ l := by
  induction l with
  | nil => simp [List.takeWhile] at h
  | cons y ys ih =>
    by_cases hq : q y = true
    · rw [List.takeWhile_cons_of_pos hq] at h
      rcases List.mem_cons.mp h with h | h
      · exact h ▸ List.mem_cons_self y ys
      · exact List.mem_cons_of_mem y (ih h)
    · rw [List.takeWhile_cons_of_neg hq] at h
      simp at h

theorem pred_of_mem_takeWhile {α : Type} (q : α → Bool) (l : List α) (x : α)
    (h : x ∈ l.takeWhile q) : q x = true := by
  induction l with
  | nil => simp [List.takeWhile] at h
  | cons y ys ih =>
    by_cases hq : q y = true
    · rw [List.takeWhile_cons_of_pos hq] at h
      rcases List.mem_cons.mp h with h | h
      · exact h ▸ hq
      · exact ih h
    · rw [List.takeWhile_cons_of_neg hq] at h
      simp at h

theorem length_dropWhile_le {α : Type} (q : α → Bool) (l : List α) :
    (l.dropWhile q).length ≤ l.length := by
  induction l with
  | nil => simp [List.dropWhile]
  | cons y ys ih =>
    by_cases hq : q y = true
    · rw [List.dropWhile_cons_of_pos hq]
      exact le_trans ih (Nat.le_succ _)
    · rw [List.dropWhile_cons_of_neg hq]

theorem takeWhile_eq_self {α : Type} (q : α → Bool) (l : List α)
    (h : ∀ x ∈ l, q x = true) : l.takeWhile q = l := by
  induction l with
  | nil => rfl
  | cons y ys ih =>
    rw [List.takeWhile_cons_of_pos (h y (List.mem_cons_self y ys))]
    rw [ih (fun x hx => h x (List.mem_cons_of_mem y hx))]

theorem dropWhile_eq_nil {α : Type} (q : α → Bool) (l : List α)
    (h : ∀ x ∈ l, q x = true) : l.dropWhile q = [] := by
  induction l with
  | nil => rfl
  | cons y ys ih =>
    rw [List.dropWhile_cons_of_pos (h y (List.mem_cons_self y ys))]
    exact ih (fun x hx => h x (List.mem_cons_of_mem y hx))

theorem parseExpressionLoop_sim (fuel : Nat) :
    ∀ (minP : Nat) (left : Node) (a : String) (post : List (String × String))
      (errs : List String),
    (∀ x ∈ post, isBinOp x.1 = true) → 3 * post.length + 1 ≤ fuel → 1 ≤ minP →
    parseExpressionLoop fuel minP left (chainState a post errs) =
      (some (precForm left (post.takeWhile (fun x => decide (minP < precedenceOf x.1)))),
       chainState (endAtom a (post.takeWhile (fun x => decide (minP < precedenceOf x.1))))
         (post.dropWhile (fun x => decide (minP < precedenceOf x.1))) errs) := by
  induction fuel using Nat.strong_induction_on with
  | _ fuel ih =>
  intro minP left a post errs hall hfuel hmin
  obtain ⟨f, rfl⟩ : ∃ f, fuel = f + 1 := ⟨fuel - 1, by omega⟩
  cases post with
  | nil =>
    rw [parseExpressionLoop_nil f minP left a errs hmin]
    simp only [List.takeWhile_nil, List.dropWhile_nil]
    rw [show precForm left [] = left from specParse_nil 0 left]
    rfl
  | cons x rest =>
    obtain ⟨o, b⟩ := x
    have hbo : isBinOp o = true := hall (o, b) (List.mem_cons_self _ _)
    have hallrest : ∀ x ∈ rest, isBinOp x.1 = true :=
      fun x hx => hall x (List.mem_cons_of_mem _ hx)
    by_cases hlt : minP < precedenceOf o
    · rw [parseExpressionLoop_go f minP left a o b rest errs hbo hlt]
      obtain ⟨g, rfl⟩ : ∃ g, f = g + 2 := ⟨f - 2, by simp at hfuel; omega⟩
      rw [parseInfixExpression_step (g + 1) o b left rest errs]
      rw [parseExpression_atom g (precedenceOf o) b rest errs]
      have hfr : 3 * rest.length + 1 ≤ g := by simp at hfuel; omega
      rw [ih g (by omega) (precedenceOf o) (.ident b) b rest errs hallrest hfr
        (by omega)]
      set Q : String × String → Bool := fun x => decide (precedenceOf o < precedenceOf x.1) with hQ
      set P : String × String → Bool := fun x => decide (minP < precedenceOf x.1) with hP
      set pre1 := rest.takeWhile Q with hpre1
      set post2 := rest.dropWhile Q with hpost2
      have hQP : ∀ x, Q x = true → P x = true := by
        intro x hx
        rw [hQ] at hx
        rw [hP]
        exact decide_eq_true (lt_trans hlt (of_decide_eq_true hx))
      have hallpost2 : ∀ x ∈ post2, isBinOp x.1 = true :=
        fun x hx => hallrest x (mem_of_mem_dropWhile Q rest x hx)
      have hlen2 : post2.length ≤ rest.length := length_dropWhile_le Q rest
      have hinner := ih (g + 2) (by omega) minP
        (.infixE left o (precForm (.ident b) pre1)) (endAtom b pre1) post2 errs
        hallpost2 (by omega) hmin
      have htw : ((o, b) :: rest).takeWhile P = (o, b) :: (pre1 ++ post2.takeWhile P) := by
        rw [List.takeWhile_cons_of_pos (by rw [hP]; exact decide_eq_true hlt)]
        rw [takeWhile_compose P Q hQP rest, hpre1, hpost2]
      have hdw : ((o, b) :: rest).dropWhile P = post2.dropWhile P := by
        rw [List.dropWhile_cons_of_pos (by rw [hP]; exact decide_eq_true hlt)]
        rw [dropWhile_compose P Q hQP rest, hpost2]
      have hpre1Q : ∀ x ∈ pre1, precedenceOf o < precedenceOf x.1 := by
        intro x hx
        exact of_decide_eq_true (pred_of_mem_takeWhile Q rest x (hpre1 ▸ hx))
      have hhead : ∀ y ∈ (post2.takeWhile P).head?, precedenceOf y.1 ≤ precedenceOf o := by
        intro y hy
        have hyp2 : post2.head? = some y := by
          cases hpc : post2 with
          | nil => rw [hpc] at hy; simp [List.takeWhile_nil] at hy
          | cons z zs =>
            rw [hpc] at hy
            by_cases hz : P z = true
            · rw [List.takeWhile_cons_of_pos hz] at hy
              simp only [List.head?, Option.mem_def, Option.some.injEq] at hy
              simp [List.head?, hy]
            · rw [List.takeWhile_cons_of_neg hz] at hy
              simp at hy
        have := head_dropWhile_false Q rest y (hpost2 ▸ hyp2)
        rw [hQ] at this
        exact le_of_not_lt (of_decide_eq_false this)
      have hmerge := precForm_merge (post2.takeWhile P).length (post2.takeWhile P)
        (le_refl _) o b pre1 left hpre1Q hhead
      have hfinal : ((some (precForm (Node.infixE left o (precForm (.ident b) pre1))
            (post2.takeWhile P)) : Option Node),
          chainState (endAtom (endAtom b pre1) (post2.takeWhile P)) (post2.dropWhile P) errs) =
          ((some (precForm left (((o, b) :: rest).takeWhile P)) : Option Node),
           chainState (endAtom a (((o, b) :: rest).takeWhile P))
             (((o, b) :: rest).dropWhile P) errs) := by
        rw [htw, hdw]
        rw [hmerge]
        rw [show endAtom a ((o, b) :: (pre1 ++ post2.takeWhile P)) =
          endAtom b (pre1 ++ post2.takeWhile P) from rfl]
        rw [endAtom_append pre1 b (post2.takeWhile P)]
      exact hinner.trans hfinal
    · rw [parseExpressionLoop_stop f minP left a o b rest errs hbo hlt]
      rw [List.takeWhile_cons_of_neg (by simp [hlt]), List.dropWhile_cons_of_neg (by simp [hlt])]
      rw [show precForm left [] = left from specParse_nil 0 left]
      rfl

theorem parseProgramLoop_step (k : Nat) (s : PState) (acc : List Node)
    (h : curTokenIs s Tok.EOF = false) :
    parseProgramLoop (k + 1) s acc =
      (match parseStatement k s with
       | (some stmt, s1) => parseProgramLoop k (advanceToken s1) (acc ++ [stmt])
       | (none, s1) => parseProgramLoop k (advanceToken s1) acc) := by
  simp only [parseProgramLoop, h, Bool.not_false, if_true]

theorem parseProgramLoop_eof (k : Nat) (s : PState) (acc : List Node)
    (h : curTokenIs s Tok.EOF = true) :
    parseProgramLoop (k + 1) s acc = (some acc, s) := by
  simp only [parseProgramLoop, h, Bool.not_true, Bool.false_eq_true, if_false]

theorem parseProgram_chain (a : String) (ops : List (String × String))
    (hall : ∀ x ∈ ops, isBinOp x.1 = true) :
    parsedProgram (3 * ops.length + 5) (chainToks a ops) =
      some (.program [.exprStmt (precForm (.ident a) ops)]) := by
  have hP : ∀ x ∈ ops, (fun x => decide (1 < precedenceOf x.1)) x = true := by
    intro x hx
    have h2 := (binOp_facts x.1 (hall x hx)).2.1
    exact decide_eq_true (by omega)
  have hsim := parseExpressionLoop_sim (3 * ops.length + 1) 1 (.ident a) a ops []
    hall (le_refl _) (le_refl _)
  rw [takeWhile_eq_self _ ops hP, dropWhile_eq_nil _ ops hP] at hsim
  have hexpr : parseExpression (3 * ops.length + 2) 1 (chainState a ops []) =
      (some (precForm (.ident a) ops), chainState (endAtom a ops) [] []) :=
    (parseExpression_atom (3 * ops.length + 1) 1 a ops []).trans hsim
  have hstmt : parseStatement (3 * ops.length + 4) (chainState a ops []) =
      (some (.exprStmt (precForm (.ident a) ops)), chainState (endAtom a ops) [] []) := by
    have hcur : curTokenIs (chainState a ops []) Tok.LET = false := by
      simp [chainState, curTokenIs, idTok, Tok.IDENT, Tok.LET]
    have hcur2 : curTokenIs (chainState a ops []) Tok.RETURN = false := by
      simp [chainState, curTokenIs, idTok, Tok.IDENT, Tok.RETURN]
    rw [show (3 : Nat) * ops.length + 4 = (3 * ops.length + 3) + 1 from rfl]
    simp only [parseStatement, hcur, hcur2, Bool.false_eq_true, if_false]
    rw [show (3 : Nat) * ops.length + 3 = (3 * ops.length + 2) + 1 from rfl]
    simp only [parseExpressionStatement, hexpr]
    have hpk : peekTokenIs (chainState (endAtom a ops) [] []) Tok.SEMICOLON = false := by
      simp [chainState, chainState_nil, peekTokenIs, eofToken, Tok.EOF, Tok.SEMICOLON, opsToks]
    simp [hpk]
  have hcurEOF : curTokenIs (chainState a ops []) Tok.EOF = false := by
    simp [chainState, curTokenIs, idTok, Tok.IDENT, Tok.EOF]
  have hloop : parseProgramLoop (3 * ops.length + 5) (chainState a ops []) [] =
      (some [.exprStmt (precForm (.ident a) ops)],
       (⟨eofToken, eofToken, [], []⟩ : PState)) := by
    rw [show (3 : Nat) * ops.length + 5 = (3 * ops.length + 4) + 1 from rfl]
    rw [parseProgramLoop_step _ _ _ hcurEOF]
    rw [hstmt]
    show parseProgramLoop (3 * ops.length + 4)
      (advanceToken (chainState (endAtom a ops) [] []))
      ([] ++ [.exprStmt (precForm (.ident a) ops)]) = _
    rw [show advanceToken (chainState (endAtom a ops) [] []) =
      (⟨eofToken, eofToken, [], []⟩ : PState) from rfl]
    rw [show (3 : Nat) * ops.length + 4 = (3 * ops.length + 3) + 1 from rfl]
    rw [parseProgramLoop_eof _ _ _ (by decide)]
    rw [List.nil_append]
  rw [parsedProgram, parseProgram, newPState_chain, hloop]

/-- C4: for every well-formed expression built from identifiers, integer
literals, the binary operators `+ - * / < > == !=` and parentheses, the
parser produces the precedence-correct AST.  Universally: every operator
chain `a0 op1 a1 ... opn an` parses to its declarative precedence reading
`precForm` (split at the last minimal-precedence operator, so a
higher-precedence operator binds tighter and equal precedences group to
the left); concretely, `a + b * c` parses as `(a + (b * c))`,
`a * b / c` as `((a * b) / c)`, `a - b - c` as `((a - b) - c)`,
`(a + b) * c` as `((a + b) * c)`, and `1 + 2 * 3` as `(1 + (2 * 3))`. -/
theorem claim_C4_precedence :
    (∀ (a : String) (ops : List (String × String)),
      (∀ x ∈ ops, isBinOp x.1 = true) →
      parsedProgram (3 * ops.length + 5) (chainToks a ops) =
        some (.program [.exprStmt (precForm (.ident a) ops)]))
    ∧ parsedProgram 20 [idTok "a", opTok "+", idTok "b", opTok "*", idTok "c"] =
        some (.program [.exprStmt (.infixE (.ident "a") "+"
          (.infixE (.ident "b") "*" (.ident "c")))])
    ∧ parsedProgram 20 [idTok "a", opTok "*", idTok "b", opTok "/", idTok "c"] =
        some (.program [.exprStmt (.infixE (.infixE (.ident "a") "*" (.ident "b")) "/"
          (.ident "c"))])
    ∧ parsedProgram 20 [idTok "a", opTok "-", idTok "b", opTok "-", idTok "c"] =
        some (.program [.exprStmt (.infixE (.infixE (.ident "a") "-" (.ident "b")) "-"
          (.ident "c"))])
    ∧ parsedProgram 20 [opTok "(", idTok "a", opTok "+", idTok "b", opTok ")",
        opTok "*", idTok "c"] =
        some (.program [.exprStmt (.infixE (.infixE (.ident "a") "+" (.ident "b")) "*"
          (.ident "c"))])
    ∧ parsedProgram 20 [intTok "1", opTok "+", intTok "2", opTok "*", intTok "3"] =
        some (.program [.exprStmt (.infixE (.intLit 1) "+"
          (.infixE (.intLit 2) "*" (.intLit 3)))]) :=
  ⟨parseProgram_chain, rfl, rfl, rfl, rfl, rfl⟩

/-- Witness for C4: the universal chain statement applied to the concrete
chain `x + y * z`, whose `precForm` evaluates to `(x + (y * z))`. -/
theorem claim_C4_precedence_witness :
    parsedProgram 11 (chainToks "x" [("+", "y"), ("*", "z")]) =
      some (.program [.exprStmt (.infixE (.ident "x") "+"
        (.infixE (.ident "y") "*" (.ident "z")))]) :=
  (claim_C4_precedence.1 "x" [("+", "y"), ("*", "z")] (by decide)).trans rfl
end Monkey
